import Mathlib

/-!
Verification of the interactive geometry engine of the BNG metric frontend
prototype (snapping, fill/merge, slice, validation) against its specification.

The JavaScript sources are shallowly embedded over exact rational coordinates
(`ℚ × ℚ`).  Euclidean distances appear in the source only inside comparisons
(`Math.sqrt(d) < tol`), so every distance comparison is embedded as the
equivalent comparison of squared distances (monotonicity of `Real.sqrt` on
nonnegatives); tolerances are squared accordingly.  Geometry containers from
OpenLayers (`ol.geom.Polygon` with a single exterior ring) are embedded as the
ring's coordinate list, first point repeated at the end, exactly as
`getCoordinates()[0]` returns them.
-/

set_option autoImplicit false

/-- A planar coordinate (EPSG:3857 metres), `[x, y]` in the source. -/
abbrev Pt : Type := ℚ × ℚ

/-- `EPSILON` from `validation.js`: 1 mm tolerance for floating comparisons. -/
def EPSILON : ℚ := 1 / 1000

/-- Squared Euclidean distance.  The source computes
`Math.sqrt(dx*dx + dy*dy)` but only ever compares the result against
tolerances or other distances, so the square is the faithful comparand. -/
def dist2 (a b : Pt) : ℚ := (b.1 - a.1) ^ 2 + (b.2 - a.2) ^ 2

/-- `direction(p1, p2, p3)` from `validation.js`: the cross product telling on
which side of the directed line `p1 → p2` the point `p3` lies. -/
def direction (p1 p2 p3 : Pt) : ℚ :=
  (p3.1 - p1.1) * (p2.2 - p1.2) - (p2.1 - p1.1) * (p3.2 - p1.2)

/-- `getClosestPointOnSegment(point, segStart, segEnd)` from `validation.js`
(the identical helper `closestPointOnSegment` appears in `slice.js`):
orthogonal projection onto the segment, clamped to its endpoints. -/
def getClosestPointOnSegment (point segStart segEnd : Pt) : Pt :=
  let dx := segEnd.1 - segStart.1
  let dy := segEnd.2 - segStart.2
  if dx = 0 ∧ dy = 0 then segStart
  else
    let t := max 0 (min 1
      (((point.1 - segStart.1) * dx + (point.2 - segStart.2) * dy) / (dx * dx + dy * dy)))
    (segStart.1 + t * dx, segStart.2 + t * dy)

/-- The directed edges of a ring: the source loops `i < coords.length - 1`
over pairs `(coords[i], coords[i+1])`, which is exactly `zip l l.tail`. -/
def ringSegments (coords : List Pt) : List (Pt × Pt) := coords.zip coords.tail

/-- Midpoint of an edge, `[(x1+x2)/2, (y1+y2)/2]` in the source. -/
def midpoint2 (a b : Pt) : Pt := ((a.1 + b.1) / 2, (a.2 + b.2) / 2)

/-- An OpenLayers extent `[minX, minY, maxX, maxY]`. -/
structure Extent where
  minX : ℚ
  minY : ℚ
  maxX : ℚ
  maxY : ℚ
deriving DecidableEq, Repr

/-- `geometry.getExtent()`: the bounding box of all ring coordinates.  For an
empty coordinate list OpenLayers yields the empty extent
`[∞, ∞, -∞, -∞]`, embedded as an inverted box that intersects nothing. -/
def getExtent : List Pt → Extent
  | [] => ⟨1, 1, 0, 0⟩
  | p :: rest =>
      rest.foldl
        (fun e q => ⟨min e.minX q.1, min e.minY q.2, max e.maxX q.1, max e.maxY q.2⟩)
        ⟨p.1, p.2, p.1, p.2⟩

/-- `ol.extent.intersects(extent1, extent2)`. -/
def extentIntersects (e1 e2 : Extent) : Prop :=
  e1.minX ≤ e2.maxX ∧ e1.maxX ≥ e2.minX ∧ e1.minY ≤ e2.maxY ∧ e1.maxY ≥ e2.minY

instance (e1 e2 : Extent) : Decidable (extentIntersects e1 e2) :=
  by unfold extentIntersects; infer_instance

/-- `isPointOnLineSegment(point, segStart, segEnd)` from `validation.js`:
inside the ε-buffered bounding box of the segment and ε-collinear with it. -/
def isPointOnLineSegment (point segStart segEnd : Pt) : Prop :=
  (min segStart.1 segEnd.1 - EPSILON ≤ point.1 ∧
   point.1 ≤ max segStart.1 segEnd.1 + EPSILON ∧
   min segStart.2 segEnd.2 - EPSILON ≤ point.2 ∧
   point.2 ≤ max segStart.2 segEnd.2 + EPSILON) ∧
  |(point.2 - segStart.2) * (segEnd.1 - segStart.1) -
   (point.1 - segStart.1) * (segEnd.2 - segStart.2)| < EPSILON

instance (p a b : Pt) : Decidable (isPointOnLineSegment p a b) :=
  by unfold isPointOnLineSegment; infer_instance

/-- `isPointOnPolygonBoundary(point, polygon)` from `validation.js`. -/
def isPointOnPolygonBoundary (point : Pt) (coords : List Pt) : Prop :=
  ∃ seg ∈ ringSegments coords, isPointOnLineSegment point seg.1 seg.2

instance (p : Pt) (coords : List Pt) : Decidable (isPointOnPolygonBoundary p coords) :=
  by unfold isPointOnPolygonBoundary; infer_instance

/-- The ray-casting loop shared by `isPointInsidePolygon` and
`isPointInsideOrOnBoundary`: `for (i = 0, j = len-2; i < len-1; j = i++)`,
toggling `inside` whenever the horizontal ray crosses edge `(coords[j], coords[i])`. -/
def rayCastInside (point : Pt) (coords : List Pt) : Bool :=
  (List.range (coords.length - 1)).foldl
    (fun inside i =>
      let j := if i = 0 then coords.length - 2 else i - 1
      let pi := coords.getD i (0, 0)
      let pj := coords.getD j (0, 0)
      if ((pi.2 > point.2) ≠ (pj.2 > point.2)) ∧
         (point.1 < (pj.1 - pi.1) * (point.2 - pi.2) / (pj.2 - pi.2) + pi.1)
      then !inside else inside)
    false

/-- `isPointInsidePolygon(point, polygon)` from `validation.js`: strictly
inside — on-boundary points are excluded before ray casting. -/
def isPointInsidePolygon (point : Pt) (coords : List Pt) : Prop :=
  ¬ isPointOnPolygonBoundary point coords ∧ rayCastInside point coords = true

instance (p : Pt) (coords : List Pt) : Decidable (isPointInsidePolygon p coords) :=
  by unfold isPointInsidePolygon; infer_instance

/-- `isPointInsideOrOnBoundary(point, polygon)` from `validation.js`. -/
def isPointInsideOrOnBoundary (point : Pt) (coords : List Pt) : Prop :=
  isPointOnPolygonBoundary point coords ∨ rayCastInside point coords = true

instance (p : Pt) (coords : List Pt) : Decidable (isPointInsideOrOnBoundary p coords) :=
  by unfold isPointInsideOrOnBoundary; infer_instance

/-- `isPolygonWithinBoundary(innerPolygon, outerPolygon)` from `validation.js`:
every inner vertex and edge midpoint inside-or-on the outer ring, plus a
buffered extent containment check. -/
def isPolygonWithinBoundary (inner outer : List Pt) : Prop :=
  (∀ v ∈ inner.dropLast, isPointInsideOrOnBoundary v outer) ∧
  (∀ seg ∈ ringSegments inner, isPointInsideOrOnBoundary (midpoint2 seg.1 seg.2) outer) ∧
  ((getExtent inner).minX ≥ (getExtent outer).minX - EPSILON * 10 ∧
   (getExtent inner).minY ≥ (getExtent outer).minY - EPSILON * 10 ∧
   (getExtent inner).maxX ≤ (getExtent outer).maxX + EPSILON * 10 ∧
   (getExtent inner).maxY ≤ (getExtent outer).maxY + EPSILON * 10)

instance (inner outer : List Pt) : Decidable (isPolygonWithinBoundary inner outer) :=
  by unfold isPolygonWithinBoundary; infer_instance

/-- The four endpoint-coincidence tests of `doLineSegmentsIntersect` share this
shape: both coordinates within `EPSILON`. -/
def ptClose (p q : Pt) : Prop := |p.1 - q.1| < EPSILON ∧ |p.2 - q.2| < EPSILON

instance (p q : Pt) : Decidable (ptClose p q) := by unfold ptClose; infer_instance

/-- `doLineSegmentsIntersect(a1, a2, b1, b2)` from `validation.js`: a proper
transversal crossing — near-collinear configurations and endpoint touches are
excluded before the sign test. -/
def doLineSegmentsIntersect (a1 a2 b1 b2 : Pt) : Prop :=
  ¬ (|direction b1 b2 a1| < EPSILON ∧ |direction b1 b2 a2| < EPSILON ∧
     |direction a1 a2 b1| < EPSILON ∧ |direction a1 a2 b2| < EPSILON) ∧
  ¬ (ptClose a1 b1 ∨ ptClose a1 b2 ∨ ptClose a2 b1 ∨ ptClose a2 b2) ∧
  ((direction b1 b2 a1 > EPSILON ∧ direction b1 b2 a2 < -EPSILON) ∨
   (direction b1 b2 a1 < -EPSILON ∧ direction b1 b2 a2 > EPSILON)) ∧
  ((direction a1 a2 b1 > EPSILON ∧ direction a1 a2 b2 < -EPSILON) ∨
   (direction a1 a2 b1 < -EPSILON ∧ direction a1 a2 b2 > EPSILON))

instance (a1 a2 b1 b2 : Pt) : Decidable (doLineSegmentsIntersect a1 a2 b1 b2) :=
  by unfold doLineSegmentsIntersect; infer_instance

/-- `doPolygonEdgesIntersect(polygon1, polygon2)` from `validation.js`. -/
def doPolygonEdgesIntersect (coords1 coords2 : List Pt) : Prop :=
  ∃ s1 ∈ ringSegments coords1, ∃ s2 ∈ ringSegments coords2,
    doLineSegmentsIntersect s1.1 s1.2 s2.1 s2.2

instance (coords1 coords2 : List Pt) : Decidable (doPolygonEdgesIntersect coords1 coords2) :=
  by unfold doPolygonEdgesIntersect; infer_instance

/-- `doPolygonsOverlap(polygon1, polygon2)` from `validation.js`: true interior
overlap — some vertex or edge midpoint of one strictly inside the other, or a
proper edge crossing, behind a bounding-box fast path. -/
def doPolygonsOverlap (coords1 coords2 : List Pt) : Prop :=
  extentIntersects (getExtent coords1) (getExtent coords2) ∧
  ((∃ v ∈ coords1.dropLast, isPointInsidePolygon v coords2) ∨
   (∃ v ∈ coords2.dropLast, isPointInsidePolygon v coords1) ∨
   doPolygonEdgesIntersect coords1 coords2 ∨
   (∃ s ∈ ringSegments coords1, isPointInsidePolygon (midpoint2 s.1 s.2) coords2) ∨
   (∃ s ∈ ringSegments coords2, isPointInsidePolygon (midpoint2 s.1 s.2) coords1))

instance (coords1 coords2 : List Pt) : Decidable (doPolygonsOverlap coords1 coords2) :=
  by unfold doPolygonsOverlap; infer_instance

/-- Snap tolerance of `correctGeometryToBoundary`: `EPSILON * 10` (1 cm),
squared for comparisons. -/
def snapTol2 : ℚ := (EPSILON * 10) ^ 2

/-- Per-vertex body of the `correctGeometryToBoundary` loop: the first
boundary vertex (ring order, closing duplicate excluded) within the snap
tolerance; otherwise the closest point on the first boundary edge within the
snap tolerance; otherwise the vertex unchanged.  `List.find?` is the loop with
its `break`. -/
def correctVertexToBoundary (boundaryCoords : List Pt) (coord : Pt) : Pt :=
  match boundaryCoords.dropLast.find? (fun v => decide (dist2 coord v < snapTol2)) with
  | some v => v
  | none =>
      match (ringSegments boundaryCoords).find?
          (fun s => decide (dist2 coord (getClosestPointOnSegment coord s.1 s.2) < snapTol2)) with
      | some s => getClosestPointOnSegment coord s.1 s.2
      | none => coord

/-- `correctGeometryToBoundary(parcelGeom, boundaryPolygon)` from
`validation.js`; a `null` boundary returns the parcel unchanged. -/
def correctGeometryToBoundary (parcelCoords : List Pt) : Option (List Pt) → List Pt
  | none => parcelCoords
  | some boundaryCoords => parcelCoords.map (correctVertexToBoundary boundaryCoords)

/-- `coordsNearlyEqual(c1, c2)` from `validation.js` (tolerance `EPSILON * 10`). -/
def coordsNearlyEqual (c1 c2 : Pt) : Prop :=
  |c1.1 - c2.1| < EPSILON * 10 ∧ |c1.2 - c2.2| < EPSILON * 10

instance (c1 c2 : Pt) : Decidable (coordsNearlyEqual c1 c2) :=
  by unfold coordsNearlyEqual; infer_instance

/-- `doSegmentsOverlap(a1, a2, b1, b2)` from `validation.js`: collinear within
`EPSILON` and overlapping by more than `EPSILON * 10` along the projection
axis. -/
def doSegmentsOverlap (a1 a2 b1 b2 : Pt) : Prop :=
  |direction a1 a2 b1| ≤ EPSILON ∧ |direction a1 a2 b2| ≤ EPSILON ∧
  (let axis : Pt → ℚ := fun p => if |a2.1 - a1.1| < EPSILON then p.2 else p.1
   min (max (axis a1) (axis a2)) (max (axis b1) (axis b2)) -
     max (min (axis a1) (axis a2)) (min (axis b1) (axis b2)) > EPSILON * 10)

instance (a1 a2 b1 b2 : Pt) : Decidable (doSegmentsOverlap a1 a2 b1 b2) := by
  unfold doSegmentsOverlap
  exact instDecidableAnd

/-- Number of vertex pairs of the two rings (closing duplicates excluded) that
are `coordsNearlyEqual` — the `sharedVertexCount` loop of
`arePolygonsAdjacent`. -/
def sharedVertexCount (coords1 coords2 : List Pt) : ℕ :=
  (coords1.dropLast.map
    (fun c1 => coords2.dropLast.countP (fun c2 => decide (coordsNearlyEqual c1 c2)))).sum

/-- `arePolygonsAdjacent(polygon1, polygon2)` from `validation.js`: behind a
buffered-extent fast path, either some pair of edges overlaps collinearly, or
at least two vertices are shared. -/
def arePolygonsAdjacent (coords1 coords2 : List Pt) : Prop :=
  extentIntersects
    ⟨(getExtent coords1).minX - EPSILON * 10, (getExtent coords1).minY - EPSILON * 10,
     (getExtent coords1).maxX + EPSILON * 10, (getExtent coords1).maxY + EPSILON * 10⟩
    (getExtent coords2) ∧
  ((∃ s1 ∈ ringSegments coords1, ∃ s2 ∈ ringSegments coords2,
      doSegmentsOverlap s1.1 s1.2 s2.1 s2.2) ∨
   sharedVertexCount coords1 coords2 ≥ 2)

instance (coords1 coords2 : List Pt) : Decidable (arePolygonsAdjacent coords1 coords2) :=
  by unfold arePolygonsAdjacent; infer_instance

/-- Breadth-first traversal of `arePolygonsContiguous`, embedded with explicit
fuel: each dequeue consumes one unit, and since every enqueued node is marked
visited first, at most `n` dequeues ever happen, so fuel `n` is exact. -/
def bfsVisit (adj : ℕ → List ℕ) : ℕ → List ℕ → List Bool → ℕ → ℕ
  | 0, _, _, count => count
  | _ + 1, [], _, count => count
  | fuel + 1, current :: rest, visited, count =>
      let step := (adj current).foldl
        (fun (acc : List ℕ × List Bool × ℕ) nb =>
          if acc.2.1.getD nb false then acc
          else (acc.1 ++ [nb], acc.2.1.set nb true, acc.2.2 + 1))
        (rest, visited, count)
      bfsVisit adj fuel step.1 step.2.1 step.2.2

/-- `arePolygonsContiguous(polygons)` from `validation.js`: empty input is
`false`, a single polygon is trivially `true`, otherwise each `i < j` pair is
tested with `arePolygonsAdjacent` (both directions pushed, giving ascending
adjacency lists) and connectivity is checked by BFS from node 0. -/
def arePolygonsContiguous (polygons : List (List Pt)) : Bool :=
  match polygons with
  | [] => false
  | [_] => true
  | _ =>
      let n := polygons.length
      let pairAdjacent : ℕ → ℕ → Bool := fun i j =>
        decide (arePolygonsAdjacent (polygons.getD i []) (polygons.getD j []))
      let adj : ℕ → List ℕ := fun i =>
        (List.range n).filter (fun j =>
          decide (j ≠ i) && (if i < j then pairAdjacent i j else pairAdjacent j i))
      bfsVisit adj n [0] ((List.replicate n false).set 0 true) 1 = n

/-- The distinct failure messages of `validateFillSelection`. -/
inductive FillSelectionError
  | noPolygonsSelected
  | notContiguous
deriving DecidableEq, Repr

/-- Result record of `validateFillSelection`. -/
structure FillValidationResult where
  valid : Bool
  error : Option FillSelectionError
deriving DecidableEq, Repr

/-- `validateFillSelection(selectedPolygons)` from `validation.js`.  In this
embedding each selected feature is already its single exterior ring, so the
Polygon/MultiPolygon extraction step is the identity and its length-mismatch
guard cannot fire. -/
def validateFillSelection (selectedPolygons : List (List Pt)) : FillValidationResult :=
  if selectedPolygons.length = 0 then ⟨false, some .noPolygonsSelected⟩
  else if selectedPolygons.length = 1 then ⟨true, none⟩
  else if arePolygonsContiguous selectedPolygons then ⟨true, none⟩
  else ⟨false, some .notContiguous⟩

/-- The distinct failure messages of `validateParcel`. -/
inductive ValidationError
  | outsideBoundary
  | overlapsParcel (index : ℕ)
deriving DecidableEq, Repr

/-- A committed habitat parcel, `{ feature, coords, vertices, colorIndex }` in
the source; the rendering handles (`feature`, `vertices`) carry the same ring,
so the embedding keeps the ring and the colour index. -/
structure Parcel where
  coords : List Pt
  colorIndex : ℕ
deriving DecidableEq, Repr

/-- Result record of `validateParcel`. -/
structure ParcelValidationResult where
  valid : Bool
  error : Option ValidationError
  correctedGeom : List Pt
deriving DecidableEq, Repr

/-- `validateParcel(parcelGeom, boundaryPolygon, habitatParcels, skipIndex)`
from `validation.js`: boundary-snap correction, then containment in the
boundary, then overlap against every other parcel (`skipIndex` excluded),
reporting the first violation. -/
def validateParcel (parcelCoords : List Pt) (boundary : Option (List Pt))
    (habitatParcels : List Parcel) (skipIndex : ℤ) : ParcelValidationResult :=
  let correctedGeom := correctGeometryToBoundary parcelCoords boundary
  let boundaryViolation : Bool :=
    match boundary with
    | none => false
    | some b => !(decide (isPolygonWithinBoundary correctedGeom b))
  if boundaryViolation then ⟨false, some .outsideBoundary, correctedGeom⟩
  else
    match habitatParcels.enum.find? (fun p =>
        decide ((p.1 : ℤ) ≠ skipIndex) &&
        decide (doPolygonsOverlap correctedGeom p.2.coords)) with
    | some p => ⟨false, some (.overlapsParcel p.1), correctedGeom⟩
    | none => ⟨true, none, correctedGeom⟩

/-! ### The snap resolver of the multi-mode drawing module -/

/-- `currentMode` of the drawing module. -/
inductive Mode
  | redLineBoundary
  | habitatParcels
deriving DecidableEq, Repr

/-- The `SNAP_TYPE` classification constants. -/
inductive SnapType
  | none
  | osFeature
  | boundaryVertex
  | boundaryEdge
  | parcelVertex
  | parcelEdge
deriving DecidableEq, Repr

/-- A reference feature held by the snap index (`snapIndexSource`), by
OpenLayers geometry type.  Geometry types without a dedicated branch in the
source (points etc.) contribute no vertices and no edges. -/
inductive OSGeom
  | point (p : Pt)
  | lineString (coords : List Pt)
  | multiLineString (lines : List (List Pt))
  | polygon (rings : List (List Pt))
  | multiPolygon (polys : List (List (List Pt)))
deriving DecidableEq, Repr

/-- `flattenCoordinates(coords, geomType)`: every vertex of a feature. -/
def flattenCoordinates : OSGeom → List Pt
  | .point _ => []
  | .lineString coords => coords
  | .multiLineString lines => lines.flatten
  | .polygon rings => rings.flatten
  | .multiPolygon polys => (polys.map List.flatten).flatten

/-- `geometry.getClosestPoint(coordinate)` for a LineString or LinearRing:
the closest point over all segments (earlier segments win ties). -/
def getClosestPoint (coords : List Pt) (c : Pt) : Pt :=
  (ringSegments coords).foldl
    (fun best seg =>
      let cand := getClosestPointOnSegment c seg.1 seg.2
      if dist2 c cand < dist2 c best then cand else best)
    (coords.headD c)

/-- The module state read by `findSnapPoint`: mode, committed geometry, the
reference-feature index, the five snap toggles, drawing/editing indices and
the view resolution.  `habitatParcels` entries are `Option` because the source
guards `parcel.feature.getGeometry()` against `null`. -/
structure SnapState where
  currentMode : Mode
  boundaryPolygon : Option (List Pt)
  habitatParcels : List (Option (List Pt))
  osFeatures : List OSGeom
  isDrawing : Bool
  snappingEnabled : Bool
  snapToBoundaryVertices : Bool
  snapToBoundaryEdges : Bool
  snapToParcelVertices : Bool
  snapToParcelEdges : Bool
  currentParcelIndex : ℤ
  editingParcelIndex : ℤ
  resolution : ℚ
  lastSnapType : SnapType
deriving DecidableEq, Repr

/-- Running scan accumulator `(minDistance, snapPoint, snapType)`;
`minDist2 = none` is the initial `Infinity`. -/
structure SnapAcc where
  minDist2 : Option ℚ
  snapPoint : Option Pt
  snapType : SnapType
deriving DecidableEq, Repr

/-- `distance < minDistance` against the running minimum. -/
def beatsMin (d2 : ℚ) : Option ℚ → Bool
  | none => true
  | some m => decide (d2 < m)

/-- The update pattern repeated throughout the scan:
`if (distance < minDistance && distance < tolerance) { minDistance = …;
snapPoint = …; snapType = …; }`. -/
def consider (tol2 : ℚ) (p : Pt) (t : SnapType) (d2 : ℚ) (acc : SnapAcc) : SnapAcc :=
  if beatsMin d2 acc.minDist2 && decide (d2 < tol2) then ⟨some d2, some p, t⟩ else acc

/-- The two parcel-skip guards shared by the parcel scans: the parcel being
edited, and (while drawing) the parcel being drawn. -/
def skipParcel (st : SnapState) (index : ℕ) : Bool :=
  decide ((index : ℤ) = st.editingParcelIndex) ||
  (st.isDrawing && decide ((index : ℤ) = st.currentParcelIndex))

/-- `findNearestExactVertex(point, tolerance)`: the nearest boundary or parcel
vertex (closing duplicates excluded, skip guards applied) within `tolerance`,
with its would-be snap type. -/
def findNearestExactVertex (st : SnapState) (point : Pt) (tol2 : ℚ) :
    Option Pt × SnapType :=
  let acc0 : SnapAcc := ⟨none, none, .none⟩
  let acc1 :=
    if st.currentMode = .habitatParcels then
      match st.boundaryPolygon with
      | some bc =>
          bc.dropLast.foldl (fun a v => consider tol2 v .boundaryVertex (dist2 point v) a) acc0
      | none => acc0
    else acc0
  let acc2 :=
    if st.currentMode = .habitatParcels ∧ 0 < st.habitatParcels.length then
      st.habitatParcels.enum.foldl (fun a pr =>
        if skipParcel st pr.1 then a
        else
          match pr.2 with
          | none => a
          | some pc =>
              pc.dropLast.foldl (fun a v => consider tol2 v .parcelVertex (dist2 point v) a) a)
        acc1
    else acc1
  (acc2.snapPoint, acc2.snapType)

/-- The result `{ coordinate, snapType }` of the snap resolver. -/
structure SnapResult where
  coordinate : Pt
  snapType : SnapType
deriving DecidableEq, Repr

/-- `findSnapPoint(coordinate)` of the multi-mode drawing module: scans, in
source order, boundary vertices (1A), other-parcel vertices (1B), the boundary
edge closest point (1C), other-parcel edge closest points (1D), then reference
feature vertices and edges (2A), each candidate filtered by its own tolerance
against the single running minimum distance; afterwards an edge snap very
close to an exact vertex is re-snapped to that vertex.  Tolerances:
`25px * resolution`, vertices `×1.5`, re-snap `×0.1` (all squared here). -/
def findSnapPoint (st : SnapState) (coordinate : Pt) : SnapResult :=
  let tol2 := (25 * st.resolution) ^ 2
  let vtol2 := (25 * st.resolution * (3 / 2)) ^ 2
  let acc0 : SnapAcc := ⟨none, none, .none⟩
  -- 1A: boundary vertices
  let acc1 :=
    if st.snapToBoundaryVertices ∧ st.currentMode = .habitatParcels then
      match st.boundaryPolygon with
      | some bc =>
          bc.foldl (fun a v => consider vtol2 v .boundaryVertex (dist2 coordinate v) a) acc0
      | none => acc0
    else acc0
  -- 1B: vertices of other parcels
  let acc2 :=
    if st.snapToParcelVertices ∧ st.currentMode = .habitatParcels ∧
        0 < st.habitatParcels.length then
      st.habitatParcels.enum.foldl (fun a pr =>
        if skipParcel st pr.1 then a
        else
          match pr.2 with
          | none => a
          | some pc =>
              pc.foldl (fun a v => consider vtol2 v .parcelVertex (dist2 coordinate v) a) a)
        acc1
    else acc1
  -- 1C: boundary edges
  let acc3 :=
    if st.snapToBoundaryEdges ∧ st.currentMode = .habitatParcels then
      match st.boundaryPolygon with
      | some bc =>
          let pt := getClosestPoint bc coordinate
          consider tol2 pt .boundaryEdge (dist2 coordinate pt) acc2
      | none => acc2
    else acc2
  -- 1D: edges of other parcels
  let acc4 :=
    if st.snapToParcelEdges ∧ st.currentMode = .habitatParcels ∧
        0 < st.habitatParcels.length then
      st.habitatParcels.enum.foldl (fun a pr =>
        if skipParcel st pr.1 then a
        else
          match pr.2 with
          | none => a
          | some pc =>
              let pt := getClosestPoint pc coordinate
              consider tol2 pt .parcelEdge (dist2 coordinate pt) a)
        acc3
    else acc3
  -- 2A: reference features, vertices first, then edges
  let acc6 :=
    if st.snappingEnabled then
      let acc5 := st.osFeatures.foldl (fun a g =>
        (flattenCoordinates g).foldl
          (fun a v => consider vtol2 v .osFeature (dist2 coordinate v) a) a) acc4
      st.osFeatures.foldl (fun a g =>
        match g with
        | .point _ => a
        | .lineString cs =>
            let pt := getClosestPoint cs coordinate
            consider tol2 pt .osFeature (dist2 coordinate pt) a
        | .multiLineString ls =>
            ls.foldl (fun a line =>
              let pt := getClosestPoint line coordinate
              consider tol2 pt .osFeature (dist2 coordinate pt) a) a
        | .polygon rings =>
            let pt := getClosestPoint (rings.headD []) coordinate
            consider tol2 pt .osFeature (dist2 coordinate pt) a
        | .multiPolygon polys =>
            polys.foldl (fun a poly =>
              let pt := getClosestPoint (poly.headD []) coordinate
              consider tol2 pt .osFeature (dist2 coordinate pt) a) a) acc5
    else acc4
  -- sliver prevention: re-snap an edge hit to a very close exact vertex
  let post :=
    match acc6.snapPoint with
    | some sp =>
        if acc6.snapType = SnapType.boundaryEdge ∨ acc6.snapType = SnapType.parcelEdge ∨
            acc6.snapType = SnapType.osFeature then
          match findNearestExactVertex st sp (tol2 / 100) with
          | (some v, t) => SnapAcc.mk acc6.minDist2 (some v) t
          | (none, _) => acc6
        else acc6
    | none => acc6
  { coordinate := post.snapPoint.getD coordinate
    snapType := if post.snapPoint.isSome then post.snapType else .none }

/-- `findSnapPoint` as a call on the module state: the source body contains no
assignment to any module variable (`lastSnapCoord`/`lastSnapType` are written
only by its caller `handlePointerMove`), so the call returns the state it was
given. -/
def findSnapPointCall (st : SnapState) (coordinate : Pt) : SnapResult × SnapState :=
  (findSnapPoint st coordinate, st)

/-! ### Fill tool: selection and polygon merge -/

/-- A clicked reference polygon, `{ feature, geometry, layerType }` in the
source; the embedding keeps the exterior ring (the rendering handles and the
layer tag do not enter the selection logic). -/
structure PolygonInfo where
  geometry : List Pt
deriving DecidableEq, Repr

/-- Mutable state of the fill module read and written by
`togglePolygonSelection`. -/
structure FillState where
  selectedPolygons : List PolygonInfo
  existingBoundaryGeometry : Option (List Pt)
deriving DecidableEq, Repr

/-- Caller notifications of the fill module: the `onError(…, 'info')` call for
a cleared prior selection, and the unconditional `onSelectionChange`. -/
inductive FillEvent
  | priorSelectionClearedInfo
  | selectionChanged
deriving DecidableEq, Repr

/-- `coordsEqual(c1, c2)` of the fill module (tolerance `0.001`). -/
def coordsEqualF (c1 c2 : Pt) : Bool :=
  decide (|c1.1 - c2.1| < 1 / 1000) && decide (|c1.2 - c2.2| < 1 / 1000)

/-- `findSelectedIndex(polygonInfo)`: first selected polygon whose ring starts
at (nearly) the same coordinate and has the same length; `-1` when absent. -/
def findSelectedIndex (sel : List PolygonInfo) (info : PolygonInfo) : ℤ :=
  match sel.findIdx? (fun s =>
      coordsEqualF (info.geometry.headD (0, 0)) (s.geometry.headD (0, 0)) &&
      decide (info.geometry.length = s.geometry.length)) with
  | some i => (i : ℤ)
  | none => -1

/-- `checkAdjacencyWithSelection(geometry)`: vacuously true for an empty
selection with no boundary; otherwise adjacent (via the validation module's
`arePolygonsAdjacent`) to the existing boundary or to some selected polygon. -/
def checkAdjacencyWithSelection (st : FillState) (geometry : List Pt) : Bool :=
  if st.selectedPolygons.length = 0 ∧ st.existingBoundaryGeometry.isNone then true
  else
    (match st.existingBoundaryGeometry with
     | some b => decide (arePolygonsAdjacent geometry b)
     | none => false) ||
    st.selectedPolygons.any (fun s => decide (arePolygonsAdjacent geometry s.geometry))

/-- `togglePolygonSelection(polygonInfo)`: deselect if already selected;
otherwise, when a selection or an existing boundary is present and the click
is not adjacent to any of them, discard both and notify, then append the
clicked polygon. -/
def togglePolygonSelection (st : FillState) (info : PolygonInfo) :
    FillState × List FillEvent :=
  let existingIndex := findSelectedIndex st.selectedPolygons info
  if existingIndex ≥ 0 then
    ({ st with selectedPolygons := st.selectedPolygons.eraseIdx existingIndex.toNat },
     [FillEvent.selectionChanged])
  else if (0 < st.selectedPolygons.length ∨ st.existingBoundaryGeometry.isSome) ∧
      checkAdjacencyWithSelection st info.geometry = false then
    ({ selectedPolygons := [info], existingBoundaryGeometry := none },
     [FillEvent.priorSelectionClearedInfo, FillEvent.selectionChanged])
  else
    ({ st with selectedPolygons := st.selectedPolygons ++ [info] },
     [FillEvent.selectionChanged])

/-- A directed edge record of the merge scan, with its shared flag. -/
structure MergeEdge where
  startPt : Pt
  endPt : Pt
  shared : Bool
deriving DecidableEq, Repr

/-- `toFixed(6)` quantisation used by `getEdgeKey`: round to six decimals. -/
def quant6 (q : ℚ) : ℤ := round (q * 1000000)

/-- `getEdgeKey(edge)`: both endpoints quantised to six decimals. -/
def edgeKeyQ (a b : Pt) : (ℤ × ℤ) × (ℤ × ℤ) :=
  ((quant6 a.1, quant6 a.2), (quant6 b.1, quant6 b.2))

/-- The vertex key `x.toFixed(6),y.toFixed(6)` of the walk adjacency map. -/
def vertexKeyQ (p : Pt) : ℤ × ℤ := (quant6 p.1, quant6 p.2)

/-- Index of the edge `edgeMap` currently stores under `key`: the most
recently inserted edge with that key (later `Map.set` calls overwrite). -/
def lastKeyIdx (edges : List MergeEdge) (key : (ℤ × ℤ) × (ℤ × ℤ)) : Option ℕ :=
  match edges.reverse.findIdx? (fun ed => decide (edgeKeyQ ed.startPt ed.endPt = key)) with
  | some r => some (edges.length - 1 - r)
  | none => none

/-- Set the shared flag of the edge at `idx`. -/
def markSharedAt (edges : List MergeEdge) (idx : ℕ) : List MergeEdge :=
  edges.enum.map (fun p => if p.1 = idx then { p.2 with shared := true } else p.2)

/-- The edge-collection loop of `mergePolygonCoordinates`: every directed edge
of every ring, marking an edge and its already-seen exact reverse as shared. -/
def collectEdges (polygons : List (List Pt)) : List MergeEdge :=
  polygons.foldl (fun acc coords =>
    (ringSegments coords).foldl (fun acc seg =>
      let reverseKey := edgeKeyQ seg.2 seg.1
      match lastKeyIdx acc reverseKey with
      | some idx => markSharedAt acc idx ++ [⟨seg.1, seg.2, true⟩]
      | none => acc ++ [⟨seg.1, seg.2, false⟩]) acc) []

/-- Walk adjacency: the edges whose start key matches, in insertion order. -/
def adjacencyOf (edges : List MergeEdge) (key : ℤ × ℤ) : List MergeEdge :=
  edges.filter (fun e => decide (vertexKeyQ e.startPt = key))

/-- The `while (iterations < maxIterations)` body of `walkEdges`, fuel =
`maxIterations`: push the current point, stop when back at the start with
more than 3 points, else follow the first unused edge out of the current
point. -/
def walkStep (edges : List MergeEdge) :
    ℕ → List Pt → Pt → List ((ℤ × ℤ) × (ℤ × ℤ)) → List Pt
  | 0, result, _, _ => result
  | fuel + 1, result, current, used =>
      let result := result ++ [current]
      if coordsEqualF current (result.headD (0, 0)) && decide (result.length > 3) then
        result
      else
        match (adjacencyOf edges (vertexKeyQ current)).find?
            (fun c => !(used.contains (edgeKeyQ c.startPt c.endPt))) with
        | some c => walkStep edges fuel result c.endPt (used ++ [edgeKeyQ c.startPt c.endPt])
        | none => result

/-- `walkEdges(edges)`: stitch the outer edges into one boundary walk starting
from the first edge; `none` when fewer than 3 points result. -/
def walkEdges (edges : List MergeEdge) : Option (List Pt) :=
  match edges with
  | [] => none
  | e0 :: _ =>
      let result := walkStep edges (edges.length * 2) [e0.startPt] e0.endPt
        [edgeKeyQ e0.startPt e0.endPt]
      if result.length ≥ 3 then some result else none

/-- `cross(o, a, b)` of the convex-hull fallback. -/
def crossH (o a b : Pt) : ℚ := (a.1 - o.1) * (b.2 - o.2) - (a.2 - o.2) * (b.1 - o.1)

/-- Index of the bottom-most (then left-most) point, the Graham-scan anchor. -/
def bottomMostIdx (points : List Pt) : ℕ :=
  points.enum.foldl (fun s p =>
    let ps := points.getD s (0, 0)
    if p.2.2 < ps.2 ∨ (p.2.2 = ps.2 ∧ p.2.1 < ps.1) then p.1 else s) 0

/-- Rank of the closed half-plane sweep of `atan2` values: angles in `(-π,0)`,
then `0`, then `(0,π)`, then `π`.  Together with the cross product below this
realises the source's `atan2` angle comparison exactly over `ℚ`. -/
def halfPlaneRank (s p : Pt) : ℕ :=
  if p.2 - s.2 < 0 then 0
  else if p.2 - s.2 = 0 ∧ p.1 - s.1 ≥ 0 then 1
  else if 0 < p.2 - s.2 then 2
  else 3

/-- The polar-angle comparator of `grahamScan` as a `≤` test for a stable
sort: smaller `atan2` angle first, equal angles broken by squared distance. -/
def polarLe (s a b : Pt) : Bool :=
  let ra := halfPlaneRank s a
  let rb := halfPlaneRank s b
  if ra < rb then true
  else if rb < ra then false
  else
    let cr := (a.1 - s.1) * (b.2 - s.2) - (a.2 - s.2) * (b.1 - s.1)
    if 0 < cr then true
    else if cr < 0 then false
    else decide (dist2 s a ≤ dist2 s b)

/-- The `while (hull.length >= 2 && cross(…) <= 0) hull.pop()` loop, with the
hull stack stored top-first. -/
def hullPop (point : Pt) : List Pt → List Pt
  | top :: second :: rest =>
      if crossH second top point ≤ 0 then hullPop point (second :: rest)
      else top :: second :: rest
  | l => l

/-- `grahamScan(points)`: anchor at the bottom-most point, stable sort by
polar angle, then the hull stack sweep. -/
def grahamScan (points : List Pt) : List Pt :=
  if points.length < 3 then points
  else
    let startPoint := points.getD (bottomMostIdx points) (0, 0)
    let sorted := points.mergeSort (polarLe startPoint)
    (sorted.foldl (fun hull p => p :: hullPop p hull) []).reverse

/-- `computeConvexHull(polygons)`: hull of every ring coordinate, closed. -/
def computeConvexHull (polygons : List (List Pt)) : List Pt :=
  let hull := grahamScan (polygons.foldl (fun acc coords => acc ++ coords) [])
  hull ++ [hull.headD (0, 0)]

/-- `mergePolygonCoordinates(polygons)`: single polygon returned unchanged;
otherwise cancel shared directed edges, walk the remaining outer edges into a
ring and close it, falling back to the convex hull when no outer edges remain
or the walk yields fewer than 3 points. -/
def mergePolygonCoordinates (polygons : List (List Pt)) : Option (List Pt) :=
  match polygons with
  | [] => none
  | [p] => some p
  | _ =>
      let allEdges := collectEdges polygons
      let outerEdges := allEdges.filter (fun e => !e.shared)
      if outerEdges.length = 0 then some (computeConvexHull polygons)
      else
        match walkEdges outerEdges with
        | some outerBoundary => some (outerBoundary ++ [outerBoundary.headD (0, 0)])
        | none => some (computeConvexHull polygons)

/-! ### Drawing state machine: closing a polygon -/

/-- The caller notifications fired by `closePolygon`: the non-blocking
validation warning, `onParcelAdded` and `onPolygonComplete`. -/
inductive DrawEvent
  | validationWarning (error : ValidationError)
  | parcelAdded (index : ℕ)
  | polygonCompleted
deriving DecidableEq, Repr

/-- Module state of the drawing machine read and written by `closePolygon`
(rendering-only fields — features, layers, vertex markers — omitted). -/
structure DrawState where
  currentMode : Mode
  currentPolygonCoords : List Pt
  habitatParcels : List Parcel
  boundaryPolygon : Option (List Pt)
  isDrawing : Bool
  isEditing : Bool
  polygonComplete : Bool
  canClosePolygon : Bool
  currentParcelIndex : ℤ
deriving DecidableEq, Repr

/-- `closePolygon()` of the multi-mode drawing module: below 3 vertices it is
a no-op; otherwise it closes the ring and, in habitat-parcels mode, appends
the parcel unconditionally, runs `validateParcel` purely as a warning
(via `onValidationError`), and resets for the next parcel. -/
def closePolygon (st : DrawState) : DrawState × List DrawEvent :=
  if st.currentPolygonCoords.length < 3 then (st, [])
  else
    let ring := st.currentPolygonCoords ++ [st.currentPolygonCoords.headD (0, 0)]
    let colorIndex := if st.currentMode = Mode.habitatParcels then st.habitatParcels.length else 0
    let stC := { st with
      currentPolygonCoords := ring
      isDrawing := false
      canClosePolygon := false
      polygonComplete := true
      isEditing := true }
    if st.currentMode = Mode.habitatParcels then
      let parcel : Parcel := ⟨ring, colorIndex⟩
      let parcels := st.habitatParcels ++ [parcel]
      let validation := validateParcel ring st.boundaryPolygon parcels ((parcels.length : ℤ) - 1)
      let warnEvents :=
        match validation.valid, validation.error with
        | false, some err => [DrawEvent.validationWarning err]
        | _, _ => []
      ({ stC with
          habitatParcels := parcels
          currentParcelIndex := (parcels.length : ℤ) - 1
          polygonComplete := false
          isEditing := false
          currentPolygonCoords := [] },
       warnEvents ++ [DrawEvent.parcelAdded (parcels.length - 1), DrawEvent.polygonCompleted])
    else (stC, [DrawEvent.polygonCompleted])

/-! ### Slice tool -/

/-- `sourceType` of a slice snap: the red-line boundary or one parcel. -/
inductive SourceType
  | boundary
  | parcel
deriving DecidableEq, Repr

/-- A slice snap result: the snapped coordinate, the ring index it is (for a
vertex) or follows (for an edge point), and the polygon it belongs to. -/
structure SliceSnap where
  coordinate : Pt
  edgeIndex : ℕ
  isVertex : Bool
  sourceType : SourceType
  parcelIndex : ℤ
  polygonCoords : List Pt
deriving DecidableEq, Repr

/-- The committed geometry the slice tool reads through `window.SnapDrawing`
and mutates on a successful slice. -/
structure SliceWorld where
  boundaryPolygon : Option (List Pt)
  habitatParcels : List Parcel
deriving DecidableEq, Repr

/-- `findSnapPoint(coordinate)` of `slice.js`: parcels first (vertices before
edges, edges skipped once a vertex of the same parcel holds the minimum),
then the boundary (vertices, then edges only if nothing was found). -/
def sliceFindSnapPoint (w : SliceWorld) (resolution : ℚ) (coordinate : Pt) :
    Option SliceSnap :=
  let tol2 := (25 * resolution) ^ 2
  let afterParcels : Option SliceSnap × Option ℚ :=
    w.habitatParcels.enum.foldl (fun acc pr =>
      let coords := pr.2.coords
      let acc1 := coords.dropLast.enum.foldl
        (fun (a : Option SliceSnap × Option ℚ) vi =>
          let d2 := dist2 coordinate vi.2
          if decide (d2 < tol2) && beatsMin d2 a.2 then
            (some ⟨vi.2, vi.1, true, SourceType.parcel, (pr.1 : ℤ), coords⟩, some d2)
          else a) acc
      let skipEdges : Bool :=
        match acc1.1 with
        | some r => decide (r.sourceType = SourceType.parcel) && decide (r.parcelIndex = (pr.1 : ℤ))
        | none => false
      if skipEdges then acc1
      else
        (ringSegments coords).enum.foldl (fun (a : Option SliceSnap × Option ℚ) segi =>
          let closest := getClosestPointOnSegment coordinate segi.2.1 segi.2.2
          let d2 := dist2 coordinate closest
          if decide (d2 < tol2) && beatsMin d2 a.2 then
            (some ⟨closest, segi.1, false, SourceType.parcel, (pr.1 : ℤ), coords⟩, some d2)
          else a) acc1) (none, none)
  match afterParcels.1 with
  | some r => some r
  | none =>
      match w.boundaryPolygon with
      | none => none
      | some coords =>
          let accB := coords.dropLast.enum.foldl
            (fun (a : Option SliceSnap × Option ℚ) vi =>
              let d2 := dist2 coordinate vi.2
              if decide (d2 < tol2) && beatsMin d2 a.2 then
                (some ⟨vi.2, vi.1, true, SourceType.boundary, -1, coords⟩, some d2)
              else a) (none, afterParcels.2)
          let accB2 :=
            match accB.1 with
            | some _ => accB
            | none =>
                (ringSegments coords).enum.foldl
                  (fun (a : Option SliceSnap × Option ℚ) (segi : ℕ × (Pt × Pt)) =>
                    let closest := getClosestPointOnSegment coordinate segi.2.1 segi.2.2
                    let d2 := dist2 coordinate closest
                    if decide (d2 < tol2) && beatsMin d2 a.2 then
                      (some ⟨closest, segi.1, false, SourceType.boundary, -1, coords⟩, some d2)
                    else a) accB
          accB2.1

/-- State threaded through the `for (i = 0; i < originalCoords.length; i++)`
insertion loop of `executeSlice`: the rebuilt ring so far, the two inserted
flags and the two insertion indices (`-1` = not yet inserted). -/
structure InsState where
  acc : List Pt
  startInserted : Bool
  endInserted : Bool
  startIdx : ℤ
  endIdx : ℤ
deriving DecidableEq, Repr

/-- One iteration of the insertion loop: push the vertex, record a vertex
match for start then end, then splice in a mid-edge start then end point. -/
def insertStep (s e : SliceSnap) (k : ℕ) (v : Pt) (st : InsState) : InsState :=
  let st1 : InsState := { st with acc := st.acc ++ [v] }
  let st2 : InsState :=
    if st1.startInserted = false ∧ s.isVertex = true ∧ s.edgeIndex = k then
      { st1 with startIdx := (st1.acc.length : ℤ) - 1, startInserted := true }
    else st1
  let st3 : InsState :=
    if st2.endInserted = false ∧ e.isVertex = true ∧ e.edgeIndex = k then
      { st2 with endIdx := (st2.acc.length : ℤ) - 1, endInserted := true }
    else st2
  let st4 : InsState :=
    if st3.startInserted = false ∧ s.isVertex = false ∧ s.edgeIndex = k then
      { st3 with acc := st3.acc ++ [s.coordinate],
                 startIdx := (st3.acc.length : ℤ), startInserted := true }
    else st3
  if st4.endInserted = false ∧ e.isVertex = false ∧ e.edgeIndex = k then
    { st4 with acc := st4.acc ++ [e.coordinate],
               endIdx := (st4.acc.length : ℤ), endInserted := true }
  else st4

/-- The whole insertion loop, `k` the current loop index. -/
def insertLoop (s e : SliceSnap) : ℕ → List Pt → InsState → InsState
  | _, [], st => st
  | k, v :: rest, st => insertLoop s e (k + 1) rest (insertStep s e k v st)

/-- Outcome of `executeSlice`: the two "Could not determine slice indices" /
"Cannot create valid polygons" aborts, or the two rings. -/
inductive SliceOutcome
  | indicesError
  | degenerate
  | ok (polyA polyB : List Pt)
deriving DecidableEq, Repr

/-- `executeSlice(start, end)` from `slice.js` (geometry core): rebuild the
ring (closing duplicate dropped) with the chord points inserted, split at the
two insertion indices `i ≤ j` into `[i..j]`-closed and `[j..] ++ [..i]`-closed,
rejecting missing indices and rings of fewer than 4 coordinates. -/
def executeSlice (sourceCoords : List Pt) (s e : SliceSnap) : SliceOutcome :=
  let originalCoords := sourceCoords.dropLast
  let st := insertLoop s e 0 originalCoords ⟨[], false, false, -1, -1⟩
  if st.startIdx = -1 ∨ st.endIdx = -1 then SliceOutcome.indicesError
  else
    let i := (min st.startIdx st.endIdx).toNat
    let j := (max st.startIdx st.endIdx).toNat
    let polyA := (st.acc.drop i).take (j - i + 1) ++ [st.acc.getD i (0, 0)]
    let polyB := st.acc.drop j ++ st.acc.take (i + 1) ++ [st.acc.getD j (0, 0)]
    if polyA.length < 4 ∨ polyB.length < 4 then SliceOutcome.degenerate
    else SliceOutcome.ok polyA polyB

/-- Module state of the slice tool around the two-click protocol. -/
structure SliceState where
  sliceMode : Bool
  startPoint : Option SliceSnap
  sourceType : Option SourceType
  sourceParcelIndex : ℤ
  sourceCoords : Option (List Pt)
deriving DecidableEq, Repr

/-- The `showStatus(message, severity)` calls reachable from `handleClick`. -/
inductive SliceEvent
  | warnClickOnEdge
  | infoStartPointSet
  | warnSamePolygonNeeded
  | warnSameTarget
  | warnSameParcel
  | warnTooClose
  | errorIndices
  | warnDegenerate
  | successComplete
deriving DecidableEq, Repr

/-- `createParcelsFromSlice(coordsArrays)`: append each ring as a parcel whose
colour index is the parcel count at the moment it is pushed. -/
def addParcels (parcels : List Parcel) (coordsArrays : List (List Pt)) : List Parcel :=
  coordsArrays.foldl (fun ps coords => ps ++ [⟨coords, ps.length⟩]) parcels

/-- `handleClick(evt)` of `slice.js`: first click records the start snap;
the second click is rejected (status message, nothing mutated) when it snaps
nowhere, to a different target kind, to a different parcel, or within 1 m of
the start; otherwise `executeSlice` runs and on success the boundary slice
appends two parcels (`createParcelsFromSlice`) or the parcel slice replaces
the sliced parcel (`replaceParcelWithSlice`), and the tool resets. -/
def sliceHandleClick (sst : SliceState) (w : SliceWorld) (resolution : ℚ)
    (coordinate : Pt) : SliceState × SliceWorld × List SliceEvent :=
  if sst.sliceMode = false then (sst, w, [])
  else
    let snapInfo := sliceFindSnapPoint w resolution coordinate
    match sst.startPoint with
    | none =>
        match snapInfo with
        | none => (sst, w, [SliceEvent.warnClickOnEdge])
        | some si =>
            ({ sst with
                startPoint := some si
                sourceType := some si.sourceType
                sourceParcelIndex := si.parcelIndex
                sourceCoords := some si.polygonCoords },
             w, [SliceEvent.infoStartPointSet])
    | some sp =>
        match snapInfo with
        | none => (sst, w, [SliceEvent.warnSamePolygonNeeded])
        | some si =>
            if some si.sourceType ≠ sst.sourceType then
              (sst, w, [SliceEvent.warnSameTarget])
            else if si.sourceType = SourceType.parcel ∧
                si.parcelIndex ≠ sst.sourceParcelIndex then
              (sst, w, [SliceEvent.warnSameParcel])
            else if dist2 sp.coordinate si.coordinate < 1 then
              (sst, w, [SliceEvent.warnTooClose])
            else
              match executeSlice (sst.sourceCoords.getD []) sp si with
              | SliceOutcome.indicesError => (sst, w, [SliceEvent.errorIndices])
              | SliceOutcome.degenerate => (sst, w, [SliceEvent.warnDegenerate])
              | SliceOutcome.ok polyA polyB =>
                  let parcels1 :=
                    if sst.sourceType = some SourceType.boundary then
                      addParcels w.habitatParcels [polyA, polyB]
                    else
                      addParcels (w.habitatParcels.eraseIdx sst.sourceParcelIndex.toNat)
                        [polyA, polyB]
                  let w1 := { w with habitatParcels := parcels1 }
                  (⟨false, none, none, -1, none⟩, w1, [SliceEvent.successComplete])

/-! ### Shoelace area and slice-conservation theory -/

/-- One shoelace term, `x_a * y_b - x_b * y_a`. -/
def cross2 (a b : Pt) : ℚ := a.1 * b.2 - b.1 * a.2

/-- Twice the signed shoelace area of a coordinate path: the sum of `cross2`
over consecutive pairs.  Applied to a closed ring (first = last) this is twice
the polygon's signed area — the quantity behind `geom.getArea()`. -/
def pathArea2 : List Pt → ℚ
  | a :: b :: rest => cross2 a b + pathArea2 (b :: rest)
  | _ => 0

/-- The point at parameter `t` on the segment from `a` to `b` — the form in
which `closestPointOnSegment` produces every mid-edge slice point. -/
def lerp (a b : Pt) (t : ℚ) : Pt := (a.1 + t * (b.1 - a.1), a.2 + t * (b.2 - a.2))

/-- The ring vertex the insertion loop will append next: `orig[k]` while
`k < |orig|`, wrapping to `orig[0]` (the ring closure) at `k = |orig|`. -/
def nextVtx (orig : List Pt) (k : ℕ) : Pt := orig.getD (k % orig.length) (0, 0)

/-- Loop invariant of the `executeSlice` insertion loop after `k` vertices:
the rebuilt prefix starts where the ring starts, recorded insertion indices
are `-1` or in range, and the shoelace sum of the rebuilt prefix (closed off
at the next ring vertex) equals that of the original prefix. -/
def sliceInv (orig : List Pt) (k : ℕ) (st : InsState) : Prop :=
  (st.acc = [] → k = 0) ∧
  (st.acc ≠ [] → st.acc.headD (0, 0) = orig.headD (0, 0)) ∧
  (st.startIdx = -1 ∨ (0 ≤ st.startIdx ∧ st.startIdx < (st.acc.length : ℤ))) ∧
  (st.endIdx = -1 ∨ (0 ≤ st.endIdx ∧ st.endIdx < (st.acc.length : ℤ))) ∧
  pathArea2 (st.acc ++ [nextVtx orig k]) = pathArea2 (orig.take k ++ [nextVtx orig k])

/-! ### Concrete fixtures used by the claim theorems -/

/-- The left unit square of the merge test, ring closed. -/
def unitSquareL : List Pt := [(0, 0), (1, 0), (1, 1), (0, 1), (0, 0)]

/-- The right unit square of the merge test, ring closed. -/
def unitSquareR : List Pt := [(1, 0), (2, 0), (2, 1), (1, 1), (1, 0)]

/-- A drawing-session state for the snap-priority test: habitat-parcels mode,
a 100 m square boundary, boundary-vertex snapping on, boundary-edge snapping
off, no parcels, reference snapping on with one horizontal reference line
`y = 122`, resolution 1 (so tolerance 25 m, vertex tolerance 37.5 m). -/
def snapPriorityState : SnapState where
  currentMode := Mode.habitatParcels
  boundaryPolygon := some [(0, 0), (100, 0), (100, 100), (0, 100), (0, 0)]
  habitatParcels := []
  osFeatures := [OSGeom.lineString [(0, 122), (100, 122)]]
  isDrawing := true
  snappingEnabled := true
  snapToBoundaryVertices := true
  snapToBoundaryEdges := false
  snapToParcelVertices := true
  snapToParcelEdges := true
  currentParcelIndex := -1
  editingParcelIndex := -1
  resolution := 1
  lastSnapType := SnapType.none

/-! ### Shoelace lemmas -/

theorem pathArea2_nil : pathArea2 [] = 0 := rfl

theorem pathArea2_singleton (a : Pt) : pathArea2 [a] = 0 := rfl

theorem pathArea2_cons_cons (a b : Pt) (l : List Pt) :
    pathArea2 (a :: b :: l) = cross2 a b + pathArea2 (b :: l) := rfl

theorem cross2_antisymm (a b : Pt) : cross2 a b + cross2 b a = 0 := by
  unfold cross2; ring

/-- Splitting a shoelace path at an interior point. -/
theorem pathArea2_chain (xs : List Pt) (y : Pt) (ys : List Pt) :
    pathArea2 (xs ++ y :: ys) = pathArea2 (xs ++ [y]) + pathArea2 (y :: ys) := by
  induction xs with
  | nil => simp [pathArea2_singleton]
  | cons x xs ih =>
      cases xs with
      | nil =>
          simp only [List.cons_append, List.nil_append, pathArea2_cons_cons,
            pathArea2_singleton]
          ring
      | cons x2 xs2 =>
          simp only [List.cons_append, pathArea2_cons_cons] at ih ⊢
          rw [ih]; ring

/-- Appending one more edge to a nonempty-tail path. -/
theorem pathArea2_append_pair (l : List Pt) (x y : Pt) :
    pathArea2 (l ++ [x, y]) = pathArea2 (l ++ [x]) + cross2 x y := by
  have h := pathArea2_chain l x [y]
  simpa [pathArea2_cons_cons, pathArea2_singleton] using h

/-- A collinear point inserted on an edge leaves the shoelace sum unchanged. -/
theorem pathArea2_lerp1 (a b w : Pt) (t : ℚ) (hw : w = lerp a b t) :
    pathArea2 [a, w, b] = pathArea2 [a, b] := by
  subst hw
  simp only [pathArea2_cons_cons, pathArea2_singleton, pathArea2_nil, cross2, lerp]
  ring

/-- Two collinear points (in any order) inserted on an edge leave the
shoelace sum unchanged. -/
theorem pathArea2_lerp2 (a b w1 w2 : Pt) (t u : ℚ)
    (h1 : w1 = lerp a b t) (h2 : w2 = lerp a b u) :
    pathArea2 [a, w1, w2, b] = pathArea2 [a, b] := by
  subst h1; subst h2
  simp only [pathArea2_cons_cons, pathArea2_singleton, pathArea2_nil, cross2, lerp]
  ring

/-- Splitting a closed ring at two positions conserves the shoelace sum:
with the ring decomposed as `P ++ a :: Q ++ b :: R`, the two slice outputs
`a…b`-closed and `b…a`-closed sum to the closed ring's shoelace sum
(the two copies of chord `a—b` cancel). -/
theorem splitRing_area (P Q R : List Pt) (a b : Pt) :
    pathArea2 ((a :: Q ++ [b]) ++ [a]) +
      pathArea2 ((b :: R) ++ (P ++ [a]) ++ [b]) =
    pathArea2 ((P ++ a :: Q ++ b :: R) ++
      [(P ++ a :: Q ++ b :: R).headD (0, 0)]) := by
  have hA : pathArea2 ((a :: Q ++ [b]) ++ [a]) =
      pathArea2 (a :: Q ++ [b]) + cross2 b a := by
    have h := pathArea2_append_pair (a :: Q) b a
    simp only [List.cons_append, List.append_assoc] at h ⊢
    exact h
  cases P with
  | nil =>
      have hB : pathArea2 ((b :: R) ++ ([] ++ [a]) ++ [b]) =
          pathArea2 (b :: R ++ [a]) + cross2 a b := by
        have h := pathArea2_append_pair (b :: R) a b
        simp only [List.cons_append, List.append_assoc, List.nil_append] at h ⊢
        exact h
      have hF : pathArea2 (([] ++ a :: Q ++ b :: R) ++
          [(([] : List Pt) ++ a :: Q ++ b :: R).headD (0, 0)]) =
          pathArea2 (a :: Q ++ [b]) + pathArea2 (b :: R ++ [a]) := by
        have h := pathArea2_chain (a :: Q) b (R ++ [a])
        simp only [List.cons_append, List.append_assoc, List.nil_append,
          List.headD_cons] at h ⊢
        exact h
      have hanti := cross2_antisymm a b
      simp only [List.nil_append] at hB hF ⊢
      linarith [hA, hB, hF]
  | cons p P2 =>
      have hB : pathArea2 ((b :: R) ++ ((p :: P2) ++ [a]) ++ [b]) =
          pathArea2 (b :: R ++ [p]) + pathArea2 (p :: P2 ++ [a]) + cross2 a b := by
        have h1 := pathArea2_chain (b :: R) p (P2 ++ [a] ++ [b])
        have h2 := pathArea2_append_pair (p :: P2) a b
        simp only [List.cons_append, List.append_assoc, List.nil_append] at h1 h2 ⊢
        rw [h1, h2]; ring
      have hF : pathArea2 (((p :: P2) ++ a :: Q ++ b :: R) ++
          [((p :: P2) ++ a :: Q ++ b :: R).headD (0, 0)]) =
          pathArea2 (p :: P2 ++ [a]) + pathArea2 (a :: Q ++ [b]) +
            pathArea2 (b :: R ++ [p]) := by
        have h1 := pathArea2_chain (p :: P2) a (Q ++ b :: (R ++ [p]))
        have h2 := pathArea2_chain (a :: Q) b (R ++ [p])
        simp only [List.cons_append, List.append_assoc, List.nil_append,
          List.headD_cons] at h1 h2 ⊢
        rw [h1, h2]; ring
      have hanti := cross2_antisymm a b
      linarith [hA, hB, hF]

/-! ### List helpers -/

theorem headD_drop_getD {α : Type} (l : List α) (n : ℕ) (d : α) :
    (l.drop n).headD d = l.getD n d := by
  rw [List.headD_eq_head?_getD, List.head?_drop, List.getD_eq_getElem?_getD]

theorem getD_zero_headD {α : Type} (l : List α) (d : α) :
    l.getD 0 d = l.headD d := by
  cases l <;> simp

theorem headD_append_left {α : Type} (l l2 : List α) (d : α) (h : l ≠ []) :
    (l ++ l2).headD d = l.headD d := by
  cases l with
  | nil => exact absurd rfl h
  | cons a t => simp

theorem headD_dropLast {α : Type} (l : List α) (h : 2 ≤ l.length) (d : α) :
    l.dropLast.headD d = l.headD d := by
  match l with
  | a :: b :: t => simp

/-- Decomposing a list around two positions `i < j`. -/
theorem ring_decomp (vs : List Pt) (i j : ℕ) (hij : i < j) (hj : j < vs.length) :
    ∃ P Q R : List Pt,
      vs = P ++ vs.getD i (0, 0) :: Q ++ vs.getD j (0, 0) :: R ∧
      P.length = i ∧ Q.length = j - i - 1 ∧ R = vs.drop (j + 1) := by
  have hi : i < vs.length := lt_trans hij hj
  refine ⟨vs.take i, (vs.drop (i + 1)).take (j - i - 1), vs.drop (j + 1), ?_, ?_, ?_, rfl⟩
  · have h2 : vs.drop (i + 1) =
        (vs.drop (i + 1)).take (j - i - 1) ++ vs.getD j (0, 0) :: vs.drop (j + 1) := by
      conv_lhs => rw [← List.take_append_drop (j - i - 1) (vs.drop (i + 1))]
      congr 1
      rw [List.drop_drop]
      have hji : i + 1 + (j - i - 1) = j := by omega
      rw [hji, List.drop_eq_getElem_cons hj, List.getD_eq_getElem vs (0, 0) hj]
    calc vs = vs.take i ++ vs.drop i := (List.take_append_drop i vs).symm
      _ = vs.take i ++ vs.getD i (0, 0) :: vs.drop (i + 1) := by
            rw [List.drop_eq_getElem_cons hi, List.getD_eq_getElem vs (0, 0) hi]
      _ = vs.take i ++ vs.getD i (0, 0) ::
            ((vs.drop (i + 1)).take (j - i - 1) ++ vs.getD j (0, 0) :: vs.drop (j + 1)) := by
            rw [← h2]
      _ = vs.take i ++ vs.getD i (0, 0) :: (vs.drop (i + 1)).take (j - i - 1) ++
            vs.getD j (0, 0) :: vs.drop (j + 1) := by
            simp [List.append_assoc]
  · rw [List.length_take]; omega
  · rw [List.length_take, List.length_drop]; omega

/-- `find?` returns the first match: the witness index, the predicate at the
result, and failure of the predicate on everything before it. -/
theorem find?_first {α : Type} (p : α → Bool) (l : List α) (b : α) (d : α)
    (h : l.find? p = some b) :
    ∃ n, n < l.length ∧ l.getD n d = b ∧ p b = true ∧
      ∀ x ∈ l.take n, p x = false := by
  induction l with
  | nil => simp [List.find?] at h
  | cons a l ih =>
      by_cases hpa : p a = true
      · rw [List.find?_cons_of_pos l hpa] at h
        injection h with h
        subst h
        exact ⟨0, by simp, by simp, hpa, by simp⟩
      · rw [List.find?_cons_of_neg l hpa] at h
        obtain ⟨n, hn, hg, hp, hall⟩ := ih h
        refine ⟨n + 1, by simpa using Nat.succ_lt_succ hn, by simpa using hg, hp, ?_⟩
        intro x hx
        rw [List.take_succ_cons, List.mem_cons] at hx
        rcases hx with hx1 | hx1
        · subst hx1
          exact Bool.eq_false_iff.mpr hpa
        · exact hall x hx1

/-! ### The insertion-loop invariant -/

theorem take_succ_getD {α : Type} (l : List α) (k : ℕ) (d : α) (h : k < l.length) :
    l.take (k + 1) = l.take k ++ [l.getD k d] := by
  rw [List.take_succ, List.getD_eq_getElem l d h, List.getElem?_eq_getElem h]
  rfl

/-- The four possible effects of one insertion-loop iteration on the rebuilt
ring: just the vertex, vertex plus the mid-edge start point, vertex plus the
mid-edge end point, or vertex plus both (start first). -/
theorem insertStep_cases (s e : SliceSnap) (k : ℕ) (v : Pt) (st : InsState) :
    ((insertStep s e k v st).acc = st.acc ++ [v]) ∨
    ((insertStep s e k v st).acc = st.acc ++ [v, s.coordinate] ∧
      s.isVertex = false ∧ s.edgeIndex = k) ∨
    ((insertStep s e k v st).acc = st.acc ++ [v, e.coordinate] ∧
      e.isVertex = false ∧ e.edgeIndex = k) ∨
    ((insertStep s e k v st).acc = st.acc ++ [v, s.coordinate, e.coordinate] ∧
      s.isVertex = false ∧ s.edgeIndex = k ∧ e.isVertex = false ∧ e.edgeIndex = k) := by
  by_cases hsv : s.isVertex = true <;> by_cases hev : e.isVertex = true <;>
    by_cases hsk : s.edgeIndex = k <;> by_cases hek : e.edgeIndex = k <;>
    by_cases hsi : st.startInserted = true <;> by_cases hei : st.endInserted = true <;>
    simp [insertStep, hsv, hev, hsk, hek, hsi, hei]

/-- One iteration leaves each insertion index unchanged or in range. -/
theorem insertStep_startIdx (s e : SliceSnap) (k : ℕ) (v : Pt) (st : InsState) :
    ((insertStep s e k v st).startIdx = st.startIdx ∨
      (0 ≤ (insertStep s e k v st).startIdx ∧
       (insertStep s e k v st).startIdx < ((insertStep s e k v st).acc.length : ℤ))) ∧
    ((insertStep s e k v st).endIdx = st.endIdx ∨
      (0 ≤ (insertStep s e k v st).endIdx ∧
       (insertStep s e k v st).endIdx < ((insertStep s e k v st).acc.length : ℤ))) := by
  by_cases hsv : s.isVertex = true <;> by_cases hev : e.isVertex = true <;>
    by_cases hsk : s.edgeIndex = k <;> by_cases hek : e.edgeIndex = k <;>
    by_cases hsi : st.startInserted = true <;> by_cases hei : st.endInserted = true <;>
    simp [insertStep, hsv, hev, hsk, hek, hsi, hei] <;> try omega

/-- Chaining one loop iteration onto the invariant's shoelace equation. -/
theorem area_step (acc tk mid : List Pt) (v w : Pt)
    (hbase : pathArea2 (acc ++ [v]) = pathArea2 (tk ++ [v]))
    (hmid : pathArea2 (v :: (mid ++ [w])) = pathArea2 [v, w]) :
    pathArea2 ((acc ++ v :: mid) ++ [w]) = pathArea2 ((tk ++ [v]) ++ [w]) := by
  have h1 := pathArea2_chain acc v (mid ++ [w])
  have h2 := pathArea2_chain tk v [w]
  simp only [List.append_assoc, List.cons_append, List.nil_append] at h1 h2 ⊢
  rw [h1, h2, hbase, hmid]

/-- The non-area conjuncts of the invariant, advanced one iteration. -/
theorem sliceInv_step_aux (orig : List Pt) (k : ℕ) (st st2 : InsState) (v : Pt)
    (mid : List Pt)
    (hc : st2.acc = st.acc ++ v :: mid)
    (hv : orig.getD k (0, 0) = v)
    (hk0 : st.acc = [] → k = 0)
    (hhead : st.acc ≠ [] → st.acc.headD (0, 0) = orig.headD (0, 0))
    (hsb : st.startIdx = -1 ∨ (0 ≤ st.startIdx ∧ st.startIdx < (st.acc.length : ℤ)))
    (heb : st.endIdx = -1 ∨ (0 ≤ st.endIdx ∧ st.endIdx < (st.acc.length : ℤ)))
    (hsx : st2.startIdx = st.startIdx ∨
      (0 ≤ st2.startIdx ∧ st2.startIdx < (st2.acc.length : ℤ)))
    (hex : st2.endIdx = st.endIdx ∨
      (0 ≤ st2.endIdx ∧ st2.endIdx < (st2.acc.length : ℤ))) :
    (st2.acc = [] → k + 1 = 0) ∧
    (st2.acc ≠ [] → st2.acc.headD (0, 0) = orig.headD (0, 0)) ∧
    (st2.startIdx = -1 ∨ (0 ≤ st2.startIdx ∧ st2.startIdx < (st2.acc.length : ℤ))) ∧
    (st2.endIdx = -1 ∨ (0 ≤ st2.endIdx ∧ st2.endIdx < (st2.acc.length : ℤ))) := by
  have hgrow : (st.acc.length : ℤ) ≤ (st2.acc.length : ℤ) := by
    rw [hc]; simp only [List.length_append, List.length_cons]; omega
  refine ⟨?_, ?_, ?_, ?_⟩
  · intro h; rw [hc] at h; simp at h
  · intro _
    rw [hc]
    by_cases hacc : st.acc = []
    · rw [hacc, List.nil_append, List.headD_cons, ← hv, hk0 hacc]
      exact getD_zero_headD orig (0, 0)
    · rw [headD_append_left st.acc (v :: mid) (0, 0) hacc]; exact hhead hacc
  · rcases hsx with h | h
    · rcases hsb with h2 | h2
      · left; rw [h, h2]
      · right; rw [h]; exact ⟨h2.1, lt_of_lt_of_le h2.2 hgrow⟩
    · right; exact h
  · rcases hex with h | h
    · rcases heb with h2 | h2
      · left; rw [h, h2]
      · right; rw [h]; exact ⟨h2.1, lt_of_lt_of_le h2.2 hgrow⟩
    · right; exact h

/-- One insertion-loop iteration preserves the invariant, given that every
mid-edge slice point lies (parametrically) on the ring edge it claims. -/
theorem insertStep_inv (s e : SliceSnap) (orig : List Pt) (k : ℕ) (v : Pt) (st : InsState)
    (hk : k < orig.length) (hv : orig.getD k (0, 0) = v)
    (hS : s.isVertex = false → ∃ t : ℚ, s.coordinate =
      lerp (orig.getD s.edgeIndex (0, 0))
        (orig.getD ((s.edgeIndex + 1) % orig.length) (0, 0)) t)
    (hE : e.isVertex = false → ∃ t : ℚ, e.coordinate =
      lerp (orig.getD e.edgeIndex (0, 0))
        (orig.getD ((e.edgeIndex + 1) % orig.length) (0, 0)) t)
    (hinv : sliceInv orig k st) :
    sliceInv orig (k + 1) (insertStep s e k v st) := by
  obtain ⟨hk0, hhead, hsb, heb, harea⟩ := hinv
  have hkmod : k % orig.length = k := Nat.mod_eq_of_lt hk
  have hnv : nextVtx orig k = v := by rw [nextVtx, hkmod, hv]
  have hbase : pathArea2 (st.acc ++ [v]) = pathArea2 (orig.take k ++ [v]) := by
    rw [← hnv]; exact harea
  have htake : orig.take (k + 1) = orig.take k ++ [v] := by
    rw [take_succ_getD orig k (0, 0) hk, hv]
  have hwdef : orig.getD ((k + 1) % orig.length) (0, 0) = nextVtx orig (k + 1) := rfl
  have hidx := insertStep_startIdx s e k v st
  obtain hc | ⟨hc, hsv, hsk⟩ | ⟨hc, hev, hek⟩ | ⟨hc, hsv, hsk, hev, hek⟩ :=
    insertStep_cases s e k v st
  · obtain ⟨c1, c2, c3, c4⟩ :=
      sliceInv_step_aux orig k st _ v [] hc hv hk0 hhead hsb heb hidx.1 hidx.2
    refine ⟨c1, c2, c3, c4, ?_⟩
    have hmid : pathArea2 (v :: (([] : List Pt) ++ [nextVtx orig (k + 1)])) =
        pathArea2 [v, nextVtx orig (k + 1)] := by simp
    have h := area_step st.acc (orig.take k) [] v (nextVtx orig (k + 1)) hbase hmid
    rw [hc, htake]
    simpa using h
  · obtain ⟨c1, c2, c3, c4⟩ :=
      sliceInv_step_aux orig k st _ v [s.coordinate] hc hv hk0 hhead hsb heb hidx.1 hidx.2
    refine ⟨c1, c2, c3, c4, ?_⟩
    obtain ⟨t, ht⟩ := hS hsv
    rw [hsk, hv, hwdef] at ht
    have hmid : pathArea2 (v :: ([s.coordinate] ++ [nextVtx orig (k + 1)])) =
        pathArea2 [v, nextVtx orig (k + 1)] := by
      have := pathArea2_lerp1 v (nextVtx orig (k + 1)) s.coordinate t ht
      simpa using this
    have h := area_step st.acc (orig.take k) [s.coordinate] v (nextVtx orig (k + 1))
      hbase hmid
    rw [hc, htake]
    simpa using h
  · obtain ⟨c1, c2, c3, c4⟩ :=
      sliceInv_step_aux orig k st _ v [e.coordinate] hc hv hk0 hhead hsb heb hidx.1 hidx.2
    refine ⟨c1, c2, c3, c4, ?_⟩
    obtain ⟨t, ht⟩ := hE hev
    rw [hek, hv, hwdef] at ht
    have hmid : pathArea2 (v :: ([e.coordinate] ++ [nextVtx orig (k + 1)])) =
        pathArea2 [v, nextVtx orig (k + 1)] := by
      have := pathArea2_lerp1 v (nextVtx orig (k + 1)) e.coordinate t ht
      simpa using this
    have h := area_step st.acc (orig.take k) [e.coordinate] v (nextVtx orig (k + 1))
      hbase hmid
    rw [hc, htake]
    simpa using h
  · obtain ⟨c1, c2, c3, c4⟩ :=
      sliceInv_step_aux orig k st _ v [s.coordinate, e.coordinate] hc hv hk0 hhead hsb heb
        hidx.1 hidx.2
    refine ⟨c1, c2, c3, c4, ?_⟩
    obtain ⟨t, ht⟩ := hS hsv
    obtain ⟨u, hu⟩ := hE hev
    rw [hsk, hv, hwdef] at ht
    rw [hek, hv, hwdef] at hu
    have hmid : pathArea2 (v :: ([s.coordinate, e.coordinate] ++ [nextVtx orig (k + 1)])) =
        pathArea2 [v, nextVtx orig (k + 1)] := by
      have := pathArea2_lerp2 v (nextVtx orig (k + 1)) s.coordinate e.coordinate t u ht hu
      simpa using this
    have h := area_step st.acc (orig.take k) [s.coordinate, e.coordinate] v
      (nextVtx orig (k + 1)) hbase hmid
    rw [hc, htake]
    simpa using h

/-- The whole insertion loop preserves the invariant up to the end of the
ring. -/
theorem insertLoop_inv (s e : SliceSnap) (orig : List Pt)
    (hS : s.isVertex = false → ∃ t : ℚ, s.coordinate =
      lerp (orig.getD s.edgeIndex (0, 0))
        (orig.getD ((s.edgeIndex + 1) % orig.length) (0, 0)) t)
    (hE : e.isVertex = false → ∃ t : ℚ, e.coordinate =
      lerp (orig.getD e.edgeIndex (0, 0))
        (orig.getD ((e.edgeIndex + 1) % orig.length) (0, 0)) t) :
    ∀ (rest : List Pt) (k : ℕ) (st : InsState),
      rest = orig.drop k → k + rest.length = orig.length →
      sliceInv orig k st →
      sliceInv orig orig.length (insertLoop s e k rest st) := by
  intro rest
  induction rest with
  | nil =>
      intro k st _ hlen hinv
      have hk : k = orig.length := by simpa using hlen
      rw [insertLoop, ← hk]
      exact hinv
  | cons v rest ih =>
      intro k st hdrop hlen hinv
      have hk : k < orig.length := by
        simp only [List.length_cons] at hlen; omega
      have hv : orig.getD k (0, 0) = v := by
        rw [← headD_drop_getD, ← hdrop, List.headD_cons]
      have hdrop2 : rest = orig.drop (k + 1) := by
        rw [← List.tail_drop, ← hdrop, List.tail_cons]
      have hlen2 : (k + 1) + rest.length = orig.length := by
        simp only [List.length_cons] at hlen; omega
      rw [insertLoop]
      exact ih (k + 1) (insertStep s e k v st) hdrop2 hlen2
        (insertStep_inv s e orig k v st hk hv hS hE hinv)

/-- C3 core.  For every ring and accepted slice-point pair, `executeSlice`
yields two rings, each closed with at least 3 vertices (4 coordinates), whose
signed shoelace sums add up exactly to the original ring's. -/
theorem executeSlice_conserves (sourceCoords : List Pt) (s e : SliceSnap)
    (A B : List Pt)
    (hclosed : sourceCoords.headD (0, 0) = sourceCoords.getLastD (0, 0))
    (hS : s.isVertex = false → ∃ t : ℚ, s.coordinate =
      lerp (sourceCoords.dropLast.getD s.edgeIndex (0, 0))
        (sourceCoords.dropLast.getD
          ((s.edgeIndex + 1) % sourceCoords.dropLast.length) (0, 0)) t)
    (hE : e.isVertex = false → ∃ t : ℚ, e.coordinate =
      lerp (sourceCoords.dropLast.getD e.edgeIndex (0, 0))
        (sourceCoords.dropLast.getD
          ((e.edgeIndex + 1) % sourceCoords.dropLast.length) (0, 0)) t)
    (hok : executeSlice sourceCoords s e = SliceOutcome.ok A B) :
    A.headD (0, 0) = A.getLastD (0, 0) ∧
    B.headD (0, 0) = B.getLastD (0, 0) ∧
    4 ≤ A.length ∧ 4 ≤ B.length ∧
    pathArea2 A + pathArea2 B = pathArea2 sourceCoords := by
  have hinv0 : sliceInv sourceCoords.dropLast 0 ⟨[], false, false, -1, -1⟩ := by
    refine ⟨fun _ => rfl, fun h => absurd rfl h, Or.inl rfl, Or.inl rfl, ?_⟩
    simp [pathArea2_singleton]
  have hfin : sliceInv sourceCoords.dropLast sourceCoords.dropLast.length
      (insertLoop s e 0 sourceCoords.dropLast ⟨[], false, false, -1, -1⟩) :=
    insertLoop_inv s e sourceCoords.dropLast hS hE sourceCoords.dropLast 0
      ⟨[], false, false, -1, -1⟩ (by simp) (by simp) hinv0
  simp only [executeSlice] at hok
  set st := insertLoop s e 0 sourceCoords.dropLast ⟨[], false, false, -1, -1⟩ with hstdef
  obtain ⟨hA0, hhead, hsb, heb, harea⟩ := hfin
  by_cases hguard : st.startIdx = -1 ∨ st.endIdx = -1
  · rw [if_pos hguard] at hok
    exact absurd hok (by simp)
  rw [if_neg hguard] at hok
  push_neg at hguard
  have hsb2 : 0 ≤ st.startIdx ∧ st.startIdx < (st.acc.length : ℤ) :=
    hsb.resolve_left hguard.1
  have heb2 : 0 ≤ st.endIdx ∧ st.endIdx < (st.acc.length : ℤ) :=
    heb.resolve_left hguard.2
  by_cases hlen4 : ((st.acc.drop (min st.startIdx st.endIdx).toNat).take
        ((max st.startIdx st.endIdx).toNat - (min st.startIdx st.endIdx).toNat + 1) ++
        [st.acc.getD (min st.startIdx st.endIdx).toNat (0, 0)]).length < 4 ∨
      (st.acc.drop (max st.startIdx st.endIdx).toNat ++
        st.acc.take ((min st.startIdx st.endIdx).toNat + 1) ++
        [st.acc.getD (max st.startIdx st.endIdx).toNat (0, 0)]).length < 4
  · rw [if_pos hlen4] at hok
    exact absurd hok (by simp)
  rw [if_neg hlen4] at hok
  push_neg at hlen4
  injection hok with hokA hokB
  subst hokA
  subst hokB
  -- name the two cut positions
  have hij0 : (min st.startIdx st.endIdx).toNat ≤ (max st.startIdx st.endIdx).toNat := by
    omega
  have hjlt : (max st.startIdx st.endIdx).toNat < st.acc.length := by
    omega
  -- the length guard forces the cut positions at least two apart
  have hlenA := hlen4.1
  rw [List.length_append, List.length_take, List.length_drop] at hlenA
  have hij : (min st.startIdx st.endIdx).toNat + 2 ≤ (max st.startIdx st.endIdx).toNat := by
    simp only [List.length_cons, List.length_nil] at hlenA
    omega
  obtain ⟨P, Q, R, hdecomp, hP, hQ, hR⟩ :=
    ring_decomp st.acc (min st.startIdx st.endIdx).toNat
      (max st.startIdx st.endIdx).toNat (by omega) hjlt
  set i := (min st.startIdx st.endIdx).toNat
  set j := (max st.startIdx st.endIdx).toNat
  set a := st.acc.getD i (0, 0) with hadef
  set b := st.acc.getD j (0, 0) with hbdef
  have hassoc : st.acc = P ++ (a :: (Q ++ (b :: R))) := by
    rw [hdecomp]; simp [List.append_assoc]
  have hdropi : st.acc.drop i = a :: (Q ++ (b :: R)) := by
    conv_lhs => rw [hassoc, ← hP]
    exact List.drop_left P (a :: (Q ++ (b :: R)))
  have h1 : j - i + 1 = Q.length + 1 + 1 := by omega
  have htakeA : (st.acc.drop i).take (j - i + 1) = a :: (Q ++ [b]) := by
    rw [hdropi, h1, List.take_succ_cons]
    congr 1
    rw [List.take_append 1]
    simp
  have hAeq : (st.acc.drop i).take (j - i + 1) ++ [a] = (a :: Q ++ [b]) ++ [a] := by
    rw [htakeA]
    simp [List.append_assoc]
  have hlenPQ : (P ++ a :: Q).length = j := by
    simp only [List.length_append, List.length_cons]
    omega
  have hdropj : st.acc.drop j = b :: R := by
    conv_lhs => rw [hdecomp, ← hlenPQ]
    exact List.drop_left (P ++ a :: Q) (b :: R)
  have htakei : st.acc.take (i + 1) = P ++ [a] := by
    conv_lhs => rw [hassoc, ← hP]
    rw [List.take_append 1]
    simp
  have hBeq : st.acc.drop j ++ st.acc.take (i + 1) ++ [b] =
      (b :: R) ++ (P ++ [a]) ++ [b] := by
    rw [hdropj, htakei]
  refine ⟨?_, ?_, ?_, ?_, ?_⟩
  · rw [hAeq]
    have hh : ((a :: Q ++ [b]) ++ [a]).headD (0, 0) = a := by
      rw [headD_append_left ((a :: Q) ++ [b]) [a] (0, 0) (by simp),
        headD_append_left (a :: Q) [b] (0, 0) (by simp), List.headD_cons]
    have hl : ((a :: Q ++ [b]) ++ [a]).getLastD (0, 0) = a :=
      List.getLastD_concat (0, 0) a ((a :: Q) ++ [b])
    rw [hh, hl]
  · rw [hBeq]
    have hh : ((b :: R) ++ (P ++ [a]) ++ [b]).headD (0, 0) = b := by
      rw [headD_append_left ((b :: R) ++ (P ++ [a])) [b] (0, 0) (by simp),
        headD_append_left (b :: R) (P ++ [a]) (0, 0) (by simp), List.headD_cons]
    have hl : ((b :: R) ++ (P ++ [a]) ++ [b]).getLastD (0, 0) = b :=
      List.getLastD_concat (0, 0) b ((b :: R) ++ (P ++ [a]))
    rw [hh, hl]
  · omega
  · omega
  · -- area conservation
    have hsplit := splitRing_area P Q R a b
    rw [← hdecomp] at hsplit
    rw [hAeq, hBeq, hsplit]
    -- the closed rebuilt ring has the original ring's shoelace sum
    have haccne : st.acc ≠ [] := by
      intro h
      rw [h] at hjlt
      simp at hjlt
    have horigne : sourceCoords.dropLast ≠ [] := by
      intro h
      rw [hstdef] at hguard
      rw [h] at hguard
      simp [insertLoop] at hguard
    have hsrclen : 2 ≤ sourceCoords.length := by
      rcases sourceCoords with _ | ⟨x, l⟩
      · exact absurd rfl horigne
      · rcases l with _ | ⟨y, l2⟩
        · exact absurd rfl horigne
        · simp
    have hnext : nextVtx sourceCoords.dropLast sourceCoords.dropLast.length =
        sourceCoords.dropLast.headD (0, 0) := by
      rw [nextVtx, Nat.mod_self, getD_zero_headD]
    rw [hnext, List.take_length] at harea
    have hheads : st.acc.headD (0, 0) = sourceCoords.dropLast.headD (0, 0) :=
      hhead haccne
    have hfinal : pathArea2 (sourceCoords.dropLast ++
        [sourceCoords.dropLast.headD (0, 0)]) = pathArea2 sourceCoords := by
      have hdll : sourceCoords.dropLast.headD (0, 0) = sourceCoords.getLastD (0, 0) := by
        rw [headD_dropLast sourceCoords hsrclen, hclosed]
      have hsrcne : sourceCoords ≠ [] := by
        intro h; rw [h] at hsrclen; simp at hsrclen
      have hlastD : sourceCoords.getLastD (0, 0) = sourceCoords.getLast hsrcne := by
        rw [List.getLastD_eq_getLast?, List.getLast?_eq_getLast sourceCoords hsrcne]
        rfl
      rw [hdll, hlastD, List.dropLast_append_getLast hsrcne]
    rw [hheads, ← hfinal]
    exact harea

/-! ### Overlap symmetry -/

theorem extentIntersects_comm (e1 e2 : Extent) :
    extentIntersects e1 e2 ↔ extentIntersects e2 e1 := by
  unfold extentIntersects
  simp only [ge_iff_le]
  tauto

theorem ptClose_comm (p q : Pt) : ptClose p q ↔ ptClose q p := by
  unfold ptClose
  rw [abs_sub_comm p.1 q.1, abs_sub_comm p.2 q.2]

theorem doLineSegmentsIntersect_swap (a1 a2 b1 b2 : Pt)
    (h : doLineSegmentsIntersect a1 a2 b1 b2) :
    doLineSegmentsIntersect b1 b2 a1 a2 := by
  obtain ⟨h1, h2, h3, h4⟩ := h
  refine ⟨by tauto, ?_, h4, h3⟩
  intro hcon
  apply h2
  rcases hcon with h | h | h | h
  · exact Or.inl ((ptClose_comm a1 b1).mpr h)
  · exact Or.inr (Or.inr (Or.inl ((ptClose_comm a2 b1).mpr h)))
  · exact Or.inr (Or.inl ((ptClose_comm a1 b2).mpr h))
  · exact Or.inr (Or.inr (Or.inr ((ptClose_comm a2 b2).mpr h)))

theorem doPolygonsOverlap_swap (p q : List Pt) (h : doPolygonsOverlap p q) :
    doPolygonsOverlap q p := by
  obtain ⟨hx, hr⟩ := h
  refine ⟨(extentIntersects_comm _ _).mp hx, ?_⟩
  rcases hr with h | h | h | h | h
  · exact Or.inr (Or.inl h)
  · exact Or.inl h
  · obtain ⟨s1, hs1, s2, hs2, hint⟩ := h
    exact Or.inr (Or.inr (Or.inl ⟨s2, hs2, s1, hs1,
      doLineSegmentsIntersect_swap _ _ _ _ hint⟩))
  · exact Or.inr (Or.inr (Or.inr (Or.inr h)))
  · exact Or.inr (Or.inr (Or.inr (Or.inl h)))

/-- Each segment endpoint passes the code's own ε-tolerant on-segment test:
the cross product vanishes exactly and the buffered box contains it. -/
lemma isPointOnLineSegment_left (v w : Pt) : isPointOnLineSegment v v w := by
  unfold isPointOnLineSegment
  refine ⟨⟨?_, ?_, ?_, ?_⟩, ?_⟩
  · have : (0:ℚ) < EPSILON := by norm_num [EPSILON]
    linarith [min_le_left v.1 w.1]
  · have : (0:ℚ) < EPSILON := by norm_num [EPSILON]
    linarith [le_max_left v.1 w.1]
  · have : (0:ℚ) < EPSILON := by norm_num [EPSILON]
    linarith [min_le_left v.2 w.2]
  · have : (0:ℚ) < EPSILON := by norm_num [EPSILON]
    linarith [le_max_left v.2 w.2]
  · have hz : (v.2 - v.2) * (w.1 - v.1) - (v.1 - v.1) * (w.2 - v.2) = 0 := by ring
    rw [hz]
    norm_num [EPSILON]

/-- An edge midpoint passes the code's on-segment test for its own edge. -/
lemma midpoint_on_segment (v w : Pt) :
    isPointOnLineSegment ((v.1 + w.1) / 2, (v.2 + w.2) / 2) v w := by
  unfold isPointOnLineSegment
  refine ⟨⟨?_, ?_, ?_, ?_⟩, ?_⟩
  · have : (0:ℚ) < EPSILON := by norm_num [EPSILON]
    linarith [min_le_left v.1 w.1, min_le_right v.1 w.1]
  · have : (0:ℚ) < EPSILON := by norm_num [EPSILON]
    linarith [le_max_left v.1 w.1, le_max_right v.1 w.1]
  · have : (0:ℚ) < EPSILON := by norm_num [EPSILON]
    linarith [min_le_left v.2 w.2, min_le_right v.2 w.2]
  · have : (0:ℚ) < EPSILON := by norm_num [EPSILON]
    linarith [le_max_left v.2 w.2, le_max_right v.2 w.2]
  · have hz : ((v.2 + w.2) / 2 - v.2) * (w.1 - v.1) -
        ((v.1 + w.1) / 2 - v.1) * (w.2 - v.2) = 0 := by ring
    rw [hz]
    norm_num [EPSILON]

/-- Every vertex the overlap test probes (all but the closing duplicate)
starts some directed edge of its ring. -/
lemma exists_ringSegment_of_mem_dropLast {l : List Pt} {v : Pt} (hv : v ∈ l.dropLast) :
    ∃ w, (v, w) ∈ ringSegments l := by
  unfold ringSegments
  induction l with
  | nil => simp at hv
  | cons a rest ih =>
      cases rest with
      | nil => simp at hv
      | cons c rest2 =>
          simp only [List.dropLast, List.mem_cons] at hv
          rcases hv with rfl | hv
          · exact ⟨c, by simp [List.zip_cons_cons]⟩
          · obtain ⟨w, hw⟩ := ih (by simpa [List.dropLast] using hv)
            exact ⟨w, by simp [List.zip_cons_cons]; right; simpa using hw⟩

/-- A ring's vertices lie on the ring's own boundary per the code's test. -/
lemma vertex_on_own_boundary {l : List Pt} {v : Pt} (hv : v ∈ l.dropLast) :
    isPointOnPolygonBoundary v l := by
  obtain ⟨w, hw⟩ := exists_ringSegment_of_mem_dropLast hv
  exact ⟨(v, w), hw, isPointOnLineSegment_left v w⟩

/-- A ring's edge midpoints lie on the ring's own boundary per the code's
test. -/
lemma midpoint_on_own_boundary {l : List Pt} {s : Pt × Pt} (hs : s ∈ ringSegments l) :
    isPointOnPolygonBoundary (midpoint2 s.1 s.2) l :=
  ⟨s, hs, midpoint_on_segment s.1 s.2⟩

/-- The ray cast accepts a point for the right unit square only inside the
half-open box `[1,2) × [0,1)`. -/
lemma rayR_bounds (a b : ℚ) (h : rayCastInside (a, b) unitSquareR = true) :
    0 ≤ b ∧ b < 1 ∧ 1 ≤ a ∧ a < 2 := by
  have e1 : List.range (unitSquareR.length - 1) = [0, 1, 2, 3] := rfl
  unfold rayCastInside at h
  rw [e1] at h
  simp only [List.foldl_cons, List.foldl_nil] at h
  norm_num [unitSquareR, List.getD_cons_zero, List.getD_cons_succ] at h
  by_cases hc : ¬(b < 1 ↔ b < 0) ∧ a < 2
  · rw [if_pos hc] at h
    have hy : 0 ≤ b ∧ b < 1 := by
      by_cases h1 : b < 1 <;> by_cases h0 : b < 0
      · exact absurd (iff_of_true h1 h0) hc.1
      · exact ⟨le_of_not_lt h0, h1⟩
      · linarith
      · exact absurd (iff_of_false h1 h0) hc.1
    have hx1 : 1 ≤ a := by
      rcases h with hiff | hx
      · exact absurd hiff.symm hc.1
      · exact hx
    exact ⟨hy.1, hy.2, hx1, hc.2⟩
  · rw [if_neg hc] at h
    have hiff : b < 1 ↔ b < 0 := by
      by_contra hcon
      exact hc ⟨hcon, by linarith [h.2]⟩
    exact absurd hiff.symm h.1

/-- The ray cast accepts a point for the left unit square only inside the
half-open box `[0,1) × [0,1)`. -/
lemma rayL_bounds (a b : ℚ) (h : rayCastInside (a, b) unitSquareL = true) :
    0 ≤ b ∧ b < 1 ∧ 0 ≤ a ∧ a < 1 := by
  have e1 : List.range (unitSquareL.length - 1) = [0, 1, 2, 3] := rfl
  unfold rayCastInside at h
  rw [e1] at h
  simp only [List.foldl_cons, List.foldl_nil] at h
  norm_num [unitSquareL, List.getD_cons_zero, List.getD_cons_succ] at h
  by_cases hc : ¬(b < 1 ↔ b < 0) ∧ a < 1
  · rw [if_pos hc] at h
    have hy : 0 ≤ b ∧ b < 1 := by
      by_cases h1 : b < 1 <;> by_cases h0 : b < 0
      · exact absurd (iff_of_true h1 h0) hc.1
      · exact ⟨le_of_not_lt h0, h1⟩
      · linarith
      · exact absurd (iff_of_false h1 h0) hc.1
    have hx0 : 0 ≤ a := by
      rcases h with hiff | hx
      · exact absurd hiff.symm hc.1
      · exact hx
    exact ⟨hy.1, hy.2, hx0, hc.2⟩
  · rw [if_neg hc] at h
    have hiff : b < 1 ↔ b < 0 := by
      by_contra hcon
      exact hc ⟨hcon, by linarith [h.2]⟩
    exact absurd hiff.symm h.1

/-- The left unit square's boundary never enters the right one's strict
interior: any boundary point the ray cast places inside `[1,2) × [0,1)` is
within `EPSILON` of the shared edge `x = 1` and lands on one of the right
square's own edges. -/
lemma unitL_boundary_not_inside_R (x : Pt) (hx : isPointOnPolygonBoundary x unitSquareL) :
    ¬ isPointInsidePolygon x unitSquareR := by
  obtain ⟨a, b⟩ := x
  rintro ⟨hnb, hrc⟩
  obtain ⟨hb0, hb1, ha1, ha2⟩ := rayR_bounds a b hrc
  apply hnb
  obtain ⟨seg, hmem, hon⟩ := hx
  have hring : ringSegments unitSquareL =
      [(((0:ℚ), (0:ℚ)), ((1:ℚ), (0:ℚ))), (((1:ℚ), (0:ℚ)), ((1:ℚ), (1:ℚ))),
       (((1:ℚ), (1:ℚ)), ((0:ℚ), (1:ℚ))), (((0:ℚ), (1:ℚ)), ((0:ℚ), (0:ℚ)))] := rfl
  rw [hring] at hmem
  simp only [List.mem_cons, List.not_mem_nil, or_false] at hmem
  have hringR : ringSegments unitSquareR =
      [(((1:ℚ), (0:ℚ)), ((2:ℚ), (0:ℚ))), (((2:ℚ), (0:ℚ)), ((2:ℚ), (1:ℚ))),
       (((2:ℚ), (1:ℚ)), ((1:ℚ), (1:ℚ))), (((1:ℚ), (1:ℚ)), ((1:ℚ), (0:ℚ)))] := rfl
  rcases hmem with rfl | rfl | rfl | rfl <;>
    norm_num [isPointOnLineSegment, EPSILON, abs_lt] at hon
  · refine ⟨(((1:ℚ), (0:ℚ)), ((2:ℚ), (0:ℚ))), by rw [hringR]; norm_num, ?_⟩
    norm_num [isPointOnLineSegment, EPSILON, abs_lt]
    repeat' apply And.intro
    all_goals linarith [hon.1.1, hon.1.2.1, hon.1.2.2.1, hon.1.2.2.2, hon.2.1, hon.2.2]
  · refine ⟨(((1:ℚ), (1:ℚ)), ((1:ℚ), (0:ℚ))), by rw [hringR]; norm_num, ?_⟩
    norm_num [isPointOnLineSegment, EPSILON, abs_lt]
    repeat' apply And.intro
    all_goals linarith [hon.1.1, hon.1.2.1, hon.1.2.2.1, hon.1.2.2.2, hon.2.1, hon.2.2]
  · refine ⟨(((2:ℚ), (1:ℚ)), ((1:ℚ), (1:ℚ))), by rw [hringR]; norm_num, ?_⟩
    norm_num [isPointOnLineSegment, EPSILON, abs_lt]
    repeat' apply And.intro
    all_goals linarith [hon.1.1, hon.1.2.1, hon.1.2.2.1, hon.1.2.2.2, hon.2.1, hon.2.2]
  · exact ((by linarith [hon.2.1, hon.2.2] : False)).elim

/-- The right unit square's boundary never enters the left one's strict
interior. -/
lemma unitR_boundary_not_inside_L (x : Pt) (hx : isPointOnPolygonBoundary x unitSquareR) :
    ¬ isPointInsidePolygon x unitSquareL := by
  obtain ⟨a, b⟩ := x
  rintro ⟨hnb, hrc⟩
  obtain ⟨hb0, hb1, ha0, ha1⟩ := rayL_bounds a b hrc
  apply hnb
  obtain ⟨seg, hmem, hon⟩ := hx
  have hringR : ringSegments unitSquareR =
      [(((1:ℚ), (0:ℚ)), ((2:ℚ), (0:ℚ))), (((2:ℚ), (0:ℚ)), ((2:ℚ), (1:ℚ))),
       (((2:ℚ), (1:ℚ)), ((1:ℚ), (1:ℚ))), (((1:ℚ), (1:ℚ)), ((1:ℚ), (0:ℚ)))] := rfl
  rw [hringR] at hmem
  simp only [List.mem_cons, List.not_mem_nil, or_false] at hmem
  have hringL : ringSegments unitSquareL =
      [(((0:ℚ), (0:ℚ)), ((1:ℚ), (0:ℚ))), (((1:ℚ), (0:ℚ)), ((1:ℚ), (1:ℚ))),
       (((1:ℚ), (1:ℚ)), ((0:ℚ), (1:ℚ))), (((0:ℚ), (1:ℚ)), ((0:ℚ), (0:ℚ)))] := rfl
  rcases hmem with rfl | rfl | rfl | rfl <;>
    norm_num [isPointOnLineSegment, EPSILON, abs_lt] at hon
  · refine ⟨(((0:ℚ), (0:ℚ)), ((1:ℚ), (0:ℚ))), by rw [hringL]; norm_num, ?_⟩
    norm_num [isPointOnLineSegment, EPSILON, abs_lt]
    repeat' apply And.intro
    all_goals linarith [hon.1.1, hon.1.2.1, hon.1.2.2.1, hon.1.2.2.2, hon.2.1, hon.2.2]
  · exact ((by linarith [hon.2.1, hon.2.2] : False)).elim
  · refine ⟨(((1:ℚ), (1:ℚ)), ((0:ℚ), (1:ℚ))), by rw [hringL]; norm_num, ?_⟩
    norm_num [isPointOnLineSegment, EPSILON, abs_lt]
    repeat' apply And.intro
    all_goals linarith [hon.1.1, hon.1.2.1, hon.1.2.2.1, hon.1.2.2.2, hon.2.1, hon.2.2]
  · refine ⟨(((1:ℚ), (0:ℚ)), ((1:ℚ), (1:ℚ))), by rw [hringL]; norm_num, ?_⟩
    norm_num [isPointOnLineSegment, EPSILON, abs_lt]
    repeat' apply And.intro
    all_goals linarith [hon.1.1, hon.1.2.1, hon.1.2.2.1, hon.1.2.2.2, hon.2.1, hon.2.2]

/-- C4.  `doPolygonsOverlap` is symmetric in its two arguments; and for any
two polygons with no interior intersection — neither ring's boundary enters
the other's strict interior, and no two edges properly cross (a transversal
crossing forces an interior intersection) — `doPolygonsOverlap` returns
false: every candidate the code tests (the rings' vertices and edge
midpoints) lies on its own ring's boundary, hence by hypothesis is never
strictly inside the other polygon. -/
theorem doPolygonsOverlap_symm_and_shared_edge :
    (∀ p q : List Pt, doPolygonsOverlap p q ↔ doPolygonsOverlap q p) ∧
    ∀ p q : List Pt,
      (∀ x : Pt, isPointOnPolygonBoundary x p → ¬ isPointInsidePolygon x q) →
      (∀ x : Pt, isPointOnPolygonBoundary x q → ¬ isPointInsidePolygon x p) →
      ¬ doPolygonEdgesIntersect p q →
      ¬ doPolygonsOverlap p q := by
  refine ⟨fun p q => ⟨doPolygonsOverlap_swap p q, doPolygonsOverlap_swap q p⟩, ?_⟩
  rintro p q hpq hqp hcross ⟨-, hcase⟩
  rcases hcase with ⟨v, hv, hin⟩ | ⟨v, hv, hin⟩ | hc | ⟨s, hs, hin⟩ | ⟨s, hs, hin⟩
  · exact hpq v (vertex_on_own_boundary hv) hin
  · exact hqp v (vertex_on_own_boundary hv) hin
  · exact hcross hc
  · exact hpq _ (midpoint_on_own_boundary hs) hin
  · exact hqp _ (midpoint_on_own_boundary hs) hin

/-- C4 witness: the two closed unit squares meeting exactly along the shared
edge `x = 1` satisfy the hypotheses — each boundary stays out of the other's
strict interior and no edges properly cross — so the theorem yields no
overlap, while the code's own `arePolygonsAdjacent` accepts the pair as
adjacent. -/
theorem doPolygonsOverlap_symm_and_shared_edge_witness :
    arePolygonsAdjacent unitSquareL unitSquareR ∧
    ¬ doPolygonsOverlap unitSquareL unitSquareR :=
  ⟨by with_unfolding_all decide,
   doPolygonsOverlap_symm_and_shared_edge.2 unitSquareL unitSquareR
     unitL_boundary_not_inside_R unitR_boundary_not_inside_L
     (by with_unfolding_all decide)⟩

/-! ### Boundary-snap correction -/

/-- C8 (amended).  `correctGeometryToBoundary` maps each parcel vertex to the
first boundary vertex in ring order within the snap tolerance; otherwise to
the closest point on the first boundary edge in ring order within tolerance;
otherwise it leaves the vertex unchanged — and never moves a vertex by more
than the snap tolerance (distances squared throughout). -/
theorem correctGeometryToBoundary_first_match
    (parcelCoords boundaryCoords : List Pt) (i : ℕ)
    (hi : i < parcelCoords.length) :
    dist2 (parcelCoords.getD i (0, 0))
      ((correctGeometryToBoundary parcelCoords (some boundaryCoords)).getD i (0, 0))
      ≤ snapTol2 ∧
    ((∃ v ∈ boundaryCoords.dropLast, dist2 (parcelCoords.getD i (0, 0)) v < snapTol2) →
      ∃ n, n < boundaryCoords.dropLast.length ∧
        (correctGeometryToBoundary parcelCoords (some boundaryCoords)).getD i (0, 0) =
          boundaryCoords.dropLast.getD n (0, 0) ∧
        dist2 (parcelCoords.getD i (0, 0)) (boundaryCoords.dropLast.getD n (0, 0)) <
          snapTol2 ∧
        ∀ v ∈ boundaryCoords.dropLast.take n,
          ¬ dist2 (parcelCoords.getD i (0, 0)) v < snapTol2) ∧
    ((∀ v ∈ boundaryCoords.dropLast, ¬ dist2 (parcelCoords.getD i (0, 0)) v < snapTol2) →
      (∃ n, n < (ringSegments boundaryCoords).length ∧
        (correctGeometryToBoundary parcelCoords (some boundaryCoords)).getD i (0, 0) =
          getClosestPointOnSegment (parcelCoords.getD i (0, 0))
            ((ringSegments boundaryCoords).getD n ((0, 0), (0, 0))).1
            ((ringSegments boundaryCoords).getD n ((0, 0), (0, 0))).2 ∧
        dist2 (parcelCoords.getD i (0, 0))
          ((correctGeometryToBoundary parcelCoords (some boundaryCoords)).getD i (0, 0)) <
          snapTol2 ∧
        ∀ sg ∈ (ringSegments boundaryCoords).take n,
          ¬ dist2 (parcelCoords.getD i (0, 0))
              (getClosestPointOnSegment (parcelCoords.getD i (0, 0)) sg.1 sg.2) <
            snapTol2) ∨
      ((correctGeometryToBoundary parcelCoords (some boundaryCoords)).getD i (0, 0) =
          parcelCoords.getD i (0, 0) ∧
        ∀ sg ∈ ringSegments boundaryCoords,
          ¬ dist2 (parcelCoords.getD i (0, 0))
              (getClosestPointOnSegment (parcelCoords.getD i (0, 0)) sg.1 sg.2) <
            snapTol2)) := by
  have hres : (correctGeometryToBoundary parcelCoords (some boundaryCoords)).getD i (0, 0) =
      correctVertexToBoundary boundaryCoords (parcelCoords.getD i (0, 0)) := by
    rw [correctGeometryToBoundary,
      List.getD_eq_getElem _ _ (by simpa using hi), List.getElem_map,
      ← List.getD_eq_getElem parcelCoords (0, 0) hi]
  rw [hres]
  set c := parcelCoords.getD i (0, 0) with hc
  rw [correctVertexToBoundary]
  cases hf : boundaryCoords.dropLast.find? (fun v => decide (dist2 c v < snapTol2)) with
  | some v =>
      have hpv : dist2 c v < snapTol2 := by simpa using List.find?_some hf
      obtain ⟨n, hn, hg, _, hfirst⟩ := find?_first _ _ v (0, 0) hf
      refine ⟨le_of_lt hpv, ?_, ?_⟩
      · intro _
        exact ⟨n, hn, hg.symm, by rw [hg]; exact hpv, fun x hx =>
          of_decide_eq_false (hfirst x hx)⟩
      · intro hall
        exact absurd hpv (hall v (List.mem_of_find?_eq_some hf))
  | none =>
      have hnone : ∀ v ∈ boundaryCoords.dropLast, ¬ dist2 c v < snapTol2 := by
        intro v hv
        have := List.find?_eq_none.mp hf v hv
        simpa using this
      cases hg : (ringSegments boundaryCoords).find? (fun sg =>
          decide (dist2 c (getClosestPointOnSegment c sg.1 sg.2) < snapTol2)) with
      | some sg =>
          have hpsg : dist2 c (getClosestPointOnSegment c sg.1 sg.2) < snapTol2 := by
            simpa using List.find?_some hg
          obtain ⟨n, hn, hgn, _, hfirst⟩ := find?_first _ _ sg ((0, 0), (0, 0)) hg
          refine ⟨le_of_lt hpsg, ?_, ?_⟩
          · intro hex
            obtain ⟨v, hv, hd⟩ := hex
            exact absurd hd (hnone v hv)
          · intro _
            left
            exact ⟨n, hn, by rw [hgn], hpsg, fun x hx =>
              of_decide_eq_false (hfirst x hx)⟩
      | none =>
          have hnone2 : ∀ sg ∈ ringSegments boundaryCoords,
              ¬ dist2 c (getClosestPointOnSegment c sg.1 sg.2) < snapTol2 := by
            intro sg hsg
            have := List.find?_eq_none.mp hg sg hsg
            simpa using this
          refine ⟨?_, ?_, ?_⟩
          · have : dist2 c c = 0 := by simp [dist2]
            rw [this]
            norm_num [snapTol2, EPSILON]
          · intro hex
            obtain ⟨v, hv, hd⟩ := hex
            exact absurd hd (hnone v hv)
          · intro _
            right
            exact ⟨rfl, hnone2⟩

/-- Witness for the boundary-snap characterisation at a concrete parcel and
boundary: the first parcel vertex moves by at most the snap tolerance. -/
theorem correctGeometryToBoundary_first_match_witness :
    (0 : ℕ) < ([((3 : ℚ)/500, (0 : ℚ)), (3/500, 1/2), (1/2, 1/2), (3/500, 0)] :
        List Pt).length ∧
    dist2 (([((3 : ℚ)/500, (0 : ℚ)), (3/500, 1/2), (1/2, 1/2), (3/500, 0)] :
        List Pt).getD 0 (0, 0))
      ((correctGeometryToBoundary
          [((3 : ℚ)/500, (0 : ℚ)), (3/500, 1/2), (1/2, 1/2), (3/500, 0)]
          (some [(0, 0), (1/125, 0), (1, 0), (1, 1), (0, 1), (0, 0)])).getD 0 (0, 0))
      ≤ snapTol2 :=
  ⟨by with_unfolding_all decide,
   (correctGeometryToBoundary_first_match
      [((3 : ℚ)/500, (0 : ℚ)), (3/500, 1/2), (1/2, 1/2), (3/500, 0)]
      [(0, 0), (1/125, 0), (1, 0), (1, 1), (0, 1), (0, 0)] 0
      (by with_unfolding_all decide)).1⟩

/-- C8 counterexample: with two boundary vertices inside the 1 cm snap
tolerance of the parcel vertex `(0.006, 0)`, the corrected vertex is the
first in ring order, `(0, 0)`, although `(0.008, 0)` is strictly nearer —
refuting the "nearest boundary vertex" reading. -/
theorem correctGeometryToBoundary_not_nearest :
    (correctGeometryToBoundary
        [((3 : ℚ)/500, (0 : ℚ)), (3/500, 1/2), (1/2, 1/2), (3/500, 0)]
        (some [(0, 0), (1/125, 0), (1, 0), (1, 1), (0, 1), (0, 0)])).getD 0 (0, 0) =
      ((0 : ℚ), (0 : ℚ)) ∧
    dist2 ((3 : ℚ)/500, (0 : ℚ)) (1/125, 0) < dist2 ((3 : ℚ)/500, (0 : ℚ)) (0, 0) ∧
    dist2 ((3 : ℚ)/500, (0 : ℚ)) (1/125, 0) < snapTol2 ∧
    (((1 : ℚ)/125, (0 : ℚ)) : Pt) ≠ ((0 : ℚ), (0 : ℚ)) := by
  with_unfolding_all decide

/-! ### Snap priority, merge, contiguity, purity -/

/-- C1 evidence.  In `snapPriorityState` the boundary vertex `(0, 100)` lies
within its own vertex tolerance (37.5 m) of the pointer `(10, 120)`, and
boundary-vertex snapping is enabled, yet the resolver returns the strictly
nearer reference-feature edge point `(10, 122)` classified `os-feature`: the
scan keeps a single running minimum across all priority groups, so a later
group's strictly closer candidate overwrites an in-tolerance higher-priority
snap, contradicting the strict priority order. -/
theorem findSnapPoint_priority_violation :
    findSnapPoint snapPriorityState (10, 120) =
      { coordinate := (10, 122), snapType := SnapType.osFeature } ∧
    dist2 (10, 120) (0, 100) < (25 * snapPriorityState.resolution * (3 / 2)) ^ 2 ∧
    ((0 : ℚ), (100 : ℚ)) ∈ snapPriorityState.boundaryPolygon.getD [] ∧
    snapPriorityState.snapToBoundaryVertices = true ∧
    SnapType.osFeature ≠ SnapType.boundaryVertex := by
  with_unfolding_all decide

/-- C2 counterexample: merging the two unit squares yields a ring with 6
distinct corners, not 4 — the collinear endpoints of the cancelled shared
edge survive the merge. -/
theorem mergeTwoSquares_not_four_corners :
    (mergePolygonCoordinates [unitSquareL, unitSquareR]).map (fun r => r.dedup.length) =
      some 6 ∧ (6 : ℕ) ≠ 4 := by
  with_unfolding_all decide

/-- C2 (amended).  Merging the two closed unit squares yields the single
closed ring `(0,0) (1,0) (2,0) (2,1) (1,1) (0,1) (0,0) (0,0)` — twice the
signed shoelace area 4, i.e. area 2, geometrically the 2×1 rectangle — with
6 distinct corners (the shared-edge endpoints `(1,0)`, `(1,1)` retained as
collinear vertices) and the closing coordinate appended twice (the edge walk
had already closed the ring before `mergePolygonCoordinates` appends the
first point again). -/
theorem mergeTwoSquares_merged_ring :
    mergePolygonCoordinates [unitSquareL, unitSquareR] =
      some [(0, 0), (1, 0), (2, 0), (2, 1), (1, 1), (0, 1), (0, 0), (0, 0)] ∧
    pathArea2 [((0 : ℚ), (0 : ℚ)), (1, 0), (2, 0), (2, 1), (1, 1), (0, 1), (0, 0), (0, 0)] =
      4 ∧
    ([((0 : ℚ), (0 : ℚ)), (1, 0), (2, 0), (2, 1), (1, 1), (0, 1), (0, 0), (0, 0)] :
        List Pt).headD (0, 0) =
      ([((0 : ℚ), (0 : ℚ)), (1, 0), (2, 0), (2, 1), (1, 1), (0, 1), (0, 0), (0, 0)] :
        List Pt).getLastD (0, 0) ∧
    ([((0 : ℚ), (0 : ℚ)), (1, 0), (2, 0), (2, 1), (1, 1), (0, 1), (0, 0), (0, 0)] :
        List Pt).dedup.length = 6 := by
  with_unfolding_all decide

/-- C10.  `arePolygonsContiguous` is `false` on the empty list and `true` on
any single-element list without examining its geometry; consequently
`validateFillSelection` rejects an empty selection. -/
theorem arePolygonsContiguous_trivial_cases :
    arePolygonsContiguous [] = false ∧
    (∀ p : List Pt, arePolygonsContiguous [p] = true) ∧
    (validateFillSelection []).valid = false ∧
    (validateFillSelection []).error = some FillSelectionError.noPolygonsSelected :=
  ⟨rfl, fun _ => rfl, rfl, rfl⟩

/-- C9.  The snap resolver is a read-only query: calling it returns the module
state unchanged, calling it twice with the same pointer yields the identical
result, and the result does not even depend on the one mutable field
(`lastSnapType`) the resolver's logging reads. -/
theorem findSnapPoint_readonly_idempotent (st : SnapState) (c : Pt) :
    (findSnapPointCall st c).2 = st ∧
    (findSnapPointCall (findSnapPointCall st c).2 c).1 = (findSnapPointCall st c).1 ∧
    ∀ t : SnapType, findSnapPoint { st with lastSnapType := t } c = findSnapPoint st c := by
  refine ⟨rfl, rfl, fun t => ?_⟩
  cases st
  rfl

/-! ### Close-polygon, fill-selection and slice-rejection behaviour -/

/-- An invalid `validateParcel` result always carries an error message. -/
theorem validateParcel_invalid_error (parcelCoords : List Pt)
    (boundary : Option (List Pt)) (parcels : List Parcel) (skipIndex : ℤ)
    (h : (validateParcel parcelCoords boundary parcels skipIndex).valid = false) :
    ∃ err, (validateParcel parcelCoords boundary parcels skipIndex).error = some err := by
  simp only [validateParcel] at h ⊢
  split
  · exact ⟨ValidationError.outsideBoundary, rfl⟩
  · rename_i hbv
    rw [if_neg hbv] at h
    split
    · rename_i p _
      exact ⟨ValidationError.overlapsParcel p.1, rfl⟩
    · rename_i hfind
      rw [hfind] at h
      simp at h

/-- C5.  In habitat-parcels mode, closing a polygon of at least 3 placed
vertices appends exactly one parcel to the committed list even when
validation fails; in the failing case `onValidationError` is invoked with a
warning, and the parcel nevertheless remains (drawing state resets so the
session continues). -/
theorem closePolygon_always_appends (st : DrawState)
    (hmode : st.currentMode = Mode.habitatParcels)
    (hlen : 3 ≤ st.currentPolygonCoords.length) :
    (closePolygon st).1.habitatParcels =
      st.habitatParcels ++
        [⟨st.currentPolygonCoords ++ [st.currentPolygonCoords.headD (0, 0)],
          st.habitatParcels.length⟩] ∧
    DrawEvent.parcelAdded st.habitatParcels.length ∈ (closePolygon st).2 ∧
    ((validateParcel (st.currentPolygonCoords ++ [st.currentPolygonCoords.headD (0, 0)])
        st.boundaryPolygon
        (st.habitatParcels ++
          [⟨st.currentPolygonCoords ++ [st.currentPolygonCoords.headD (0, 0)],
            st.habitatParcels.length⟩])
        (st.habitatParcels.length : ℤ)).valid = false →
      ∃ err, DrawEvent.validationWarning err ∈ (closePolygon st).2) ∧
    (closePolygon st).1.isDrawing = false ∧
    (closePolygon st).1.currentPolygonCoords = [] := by
  have h3 : ¬ st.currentPolygonCoords.length < 3 := by omega
  have hskip : ((st.habitatParcels ++
      [(⟨st.currentPolygonCoords ++ [st.currentPolygonCoords.headD (0, 0)],
        st.habitatParcels.length⟩ : Parcel)]).length : ℤ) - 1 =
      (st.habitatParcels.length : ℤ) := by
    simp
  simp only [closePolygon, h3, if_false, hmode, if_true, ite_true, ite_false, if_neg,
    not_false_iff, reduceIte]
  refine ⟨by trivial, ?_, ?_, by trivial, by trivial⟩
  · simp
  · intro hval
    rw [hskip] at *
    obtain ⟨err, herr⟩ := validateParcel_invalid_error _ _ _ _ hval
    refine ⟨err, ?_⟩
    rw [hval, herr]
    simp

/-- Witness: closing a triangle in habitat-parcels mode on an empty session
appends exactly that parcel. -/
theorem closePolygon_always_appends_witness :
    (closePolygon (DrawState.mk Mode.habitatParcels [(0, 0), (1, 0), (0, 1)] [] none
        true false false true (-1))).1.habitatParcels =
      [⟨[(0, 0), (1, 0), (0, 1), (0, 0)], 0⟩] := by
  have h := (closePolygon_always_appends
    (DrawState.mk Mode.habitatParcels [(0, 0), (1, 0), (0, 1)] [] none
      true false false true (-1))
    rfl (by norm_num)).1
  simpa using h

/-- C6.  Clicking a reference polygon that is not already selected and not
`arePolygonsAdjacent` to any selected polygon or to the existing boundary
(at least one of which exists) clears both and leaves exactly the clicked
polygon selected, notifying the caller that the prior selection was
cleared. -/
theorem togglePolygonSelection_nonadjacent_replaces (st : FillState) (info : PolygonInfo)
    (hnew : findSelectedIndex st.selectedPolygons info = -1)
    (hprior : 0 < st.selectedPolygons.length ∨ st.existingBoundaryGeometry.isSome)
    (hnadjB : ∀ b, st.existingBoundaryGeometry = some b →
      ¬ arePolygonsAdjacent info.geometry b)
    (hnadjS : ∀ s ∈ st.selectedPolygons, ¬ arePolygonsAdjacent info.geometry s.geometry) :
    (togglePolygonSelection st info).1.selectedPolygons = [info] ∧
    (togglePolygonSelection st info).1.existingBoundaryGeometry = none ∧
    FillEvent.priorSelectionClearedInfo ∈ (togglePolygonSelection st info).2 := by
  have hchk : checkAdjacencyWithSelection st info.geometry = false := by
    rw [checkAdjacencyWithSelection]
    rw [if_neg ?hcond]
    case hcond =>
      rintro ⟨h1, h2⟩
      rcases hprior with hp | hp
      · omega
      · rw [Option.isNone_iff_eq_none] at h2
        rw [h2] at hp
        simp at hp
    rw [Bool.or_eq_false_iff]
    constructor
    · cases hb : st.existingBoundaryGeometry with
      | none => rfl
      | some b => simpa using hnadjB b hb
    · rw [List.any_eq_false]
      intro s hs
      simpa using hnadjS s hs
  simp only [togglePolygonSelection, hnew]
  rw [if_neg (by norm_num)]
  rw [if_pos ⟨by simpa using hprior, hchk⟩]
  exact ⟨rfl, rfl, by simp⟩

/-- Witness: with one selected unit square and no boundary, clicking a far
non-adjacent square replaces the selection with just that square. -/
theorem togglePolygonSelection_nonadjacent_replaces_witness :
    (togglePolygonSelection (FillState.mk [PolygonInfo.mk unitSquareL] none)
        (PolygonInfo.mk [(5, 5), (6, 5), (6, 6), (5, 6), (5, 5)])).1.selectedPolygons =
      [PolygonInfo.mk [(5, 5), (6, 5), (6, 6), (5, 6), (5, 5)]] :=
  (togglePolygonSelection_nonadjacent_replaces _ _
    (by with_unfolding_all decide)
    (Or.inl (by norm_num))
    (fun b hb => Option.noConfusion hb)
    (by
      intro s hs
      rw [List.mem_singleton] at hs
      subst hs
      with_unfolding_all decide)).1

/-- C7.  With a recorded start point, a second slice click that snaps
nowhere, to a different target kind, to a different parcel, or closer than
the minimum distance to the start is rejected: a caller-visible warning is
emitted, no committed geometry changes, and the recorded start point (and
all slice-session state) is retained unchanged. -/
theorem sliceHandleClick_second_click_rejection
    (sst : SliceState) (w : SliceWorld) (resolution : ℚ) (coordinate : Pt)
    (sp : SliceSnap)
    (hmode : sst.sliceMode = true)
    (hstart : sst.startPoint = some sp)
    (hrej : ∀ si, sliceFindSnapPoint w resolution coordinate = some si →
      (some si.sourceType ≠ sst.sourceType ∨
       (si.sourceType = SourceType.parcel ∧ si.parcelIndex ≠ sst.sourceParcelIndex) ∨
       dist2 sp.coordinate si.coordinate < 1)) :
    (sliceHandleClick sst w resolution coordinate).1 = sst ∧
    (sliceHandleClick sst w resolution coordinate).2.1 = w ∧
    ∃ ev, (sliceHandleClick sst w resolution coordinate).2.2 = [ev] ∧
      (ev = SliceEvent.warnSamePolygonNeeded ∨ ev = SliceEvent.warnSameTarget ∨
       ev = SliceEvent.warnSameParcel ∨ ev = SliceEvent.warnTooClose) := by
  simp only [sliceHandleClick, hmode, hstart]
  cases hsnap : sliceFindSnapPoint w resolution coordinate with
  | none =>
      dsimp only
      exact ⟨by simp, by simp, SliceEvent.warnSamePolygonNeeded, by simp, Or.inl rfl⟩
  | some si =>
      dsimp only
      have hd := hrej si hsnap
      by_cases h1 : some si.sourceType ≠ sst.sourceType
      · rw [if_pos h1]
        exact ⟨by simp, by simp, SliceEvent.warnSameTarget, by simp, Or.inr (Or.inl rfl)⟩
      · rw [if_neg h1]
        by_cases h2 : si.sourceType = SourceType.parcel ∧
            si.parcelIndex ≠ sst.sourceParcelIndex
        · rw [if_pos h2]
          exact ⟨by simp, by simp, SliceEvent.warnSameParcel, by simp,
            Or.inr (Or.inr (Or.inl rfl))⟩
        · have h3 : dist2 sp.coordinate si.coordinate < 1 := by tauto
          rw [if_neg h2, if_pos h3]
          exact ⟨by simp, by simp, SliceEvent.warnTooClose, by simp,
            Or.inr (Or.inr (Or.inr rfl))⟩

/-- Witness: in slice mode with a recorded boundary start point, a click far
from all geometry resolves to no snap and is rejected with every piece of
state intact. -/
theorem sliceHandleClick_second_click_rejection_witness :
    (sliceHandleClick
        (SliceState.mk true
          (some ⟨(0, 0), 0, true, SourceType.boundary, -1,
            [(0, 0), (10, 0), (10, 10), (0, 10), (0, 0)]⟩)
          (some SourceType.boundary) (-1)
          (some [(0, 0), (10, 0), (10, 10), (0, 10), (0, 0)]))
        (SliceWorld.mk (some [(0, 0), (10, 0), (10, 10), (0, 10), (0, 0)]) [])
        1 (1000, 1000)).1 =
      SliceState.mk true
        (some ⟨(0, 0), 0, true, SourceType.boundary, -1,
          [(0, 0), (10, 0), (10, 10), (0, 10), (0, 0)]⟩)
        (some SourceType.boundary) (-1)
        (some [(0, 0), (10, 0), (10, 10), (0, 10), (0, 0)]) :=
  (sliceHandleClick_second_click_rejection _ _ _ _ _ rfl rfl
    (fun si h => by
      rw [show sliceFindSnapPoint
          (SliceWorld.mk (some [(0, 0), (10, 0), (10, 10), (0, 10), (0, 0)]) [])
          1 (1000, 1000) = none from by with_unfolding_all decide] at h
      exact Option.noConfusion h)).1

/-- Witness: slicing the 10 m square from the mid-edge point `(5, 0)` to the
mid-edge point `(5, 10)` commits, both halves close, and their shoelace sums
add up to the square's. -/
theorem executeSlice_conserves_witness :
    executeSlice [(0, 0), (10, 0), (10, 10), (0, 10), (0, 0)]
        ⟨(5, 0), 0, false, SourceType.boundary, -1,
          [(0, 0), (10, 0), (10, 10), (0, 10), (0, 0)]⟩
        ⟨(5, 10), 2, false, SourceType.boundary, -1,
          [(0, 0), (10, 0), (10, 10), (0, 10), (0, 0)]⟩ =
      SliceOutcome.ok [(5, 0), (10, 0), (10, 10), (5, 10), (5, 0)]
        [(5, 10), (0, 10), (0, 0), (5, 0), (5, 10)] ∧
    pathArea2 [((5 : ℚ), (0 : ℚ)), (10, 0), (10, 10), (5, 10), (5, 0)] +
      pathArea2 [((5 : ℚ), (10 : ℚ)), (0, 10), (0, 0), (5, 0), (5, 10)] =
      pathArea2 [((0 : ℚ), (0 : ℚ)), (10, 0), (10, 10), (0, 10), (0, 0)] :=
  ⟨by with_unfolding_all decide,
   (executeSlice_conserves [(0, 0), (10, 0), (10, 10), (0, 10), (0, 0)]
      ⟨(5, 0), 0, false, SourceType.boundary, -1,
        [(0, 0), (10, 0), (10, 10), (0, 10), (0, 0)]⟩
      ⟨(5, 10), 2, false, SourceType.boundary, -1,
        [(0, 0), (10, 0), (10, 10), (0, 10), (0, 0)]⟩
      [(5, 0), (10, 0), (10, 10), (5, 10), (5, 0)]
      [(5, 10), (0, 10), (0, 0), (5, 0), (5, 10)]
      (by with_unfolding_all decide)
      (fun _ => ⟨1 / 2, by with_unfolding_all decide⟩)
      (fun _ => ⟨1 / 2, by with_unfolding_all decide⟩)
      (by with_unfolding_all decide)).2.2.2.2⟩
